import Mathlib

/-
Verification development for the edge-offset engine of `mesh_offset_edges.py`
(Blender add-on "Offset Edges", version 0.2.2).

The Python source is shallowly embedded here.  Mesh elements (`bmesh`
vertices, edges, faces) become records; a mesh element is referred to by the
value of its `index` field, matching `bmesh`'s stable indices after
`from_mesh`.  Vector arithmetic over floats is embedded over `ℝ`; the
`mathutils` operations `normalize`, `project`, `angle`, `cross`, `dot` are
given their exact real-number meanings (`angle` is modelled total via
`Real.arccos` of the clamped cosine, exactly the clamping `saacos` performs;
`mathutils` raises on zero-length inputs, which the callers here never pass).
Python `set` iteration order is modelled by the order of a list, and theorems
that depend on that order quantify over it.  Python exceptions that the
source can actually raise (`set.remove` → `KeyError`) are modelled with
`Except`.
-/

set_option maxHeartbeats 1000000

/-- Real 3-vector, the embedding of `mathutils.Vector` (3D). -/
structure V3 where
  x : ℝ
  y : ℝ
  z : ℝ

/-- Mesh edge record: `bmesh` edge with its `index`, endpoint vertex ids
`v1`/`v2` (the pair `e.verts`), `select` and `hide` flags and the ids of its
linked faces (`e.link_faces`). -/
structure MEdge where
  index : Nat
  v1 : Nat
  v2 : Nat
  select : Bool
  hide : Bool
  linkFaces : List Nat
deriving DecidableEq

/-- Mesh vertex record: `index`, coordinate `co`, `select` flag and the ids of
the linked edges (`v.link_edges`). -/
structure MVert where
  index : Nat
  co : V3
  select : Bool
  linkEdges : List Nat

/-- Mesh face record: `index`, the ordered vertex ring `verts`, `select` and
`hide` flags and the face `normal`. -/
structure MFace where
  index : Nat
  verts : List Nat
  select : Bool
  hide : Bool
  normal : V3

/-- The bmesh snapshot: vertex, edge and face tables. -/
structure Mesh where
  verts : List MVert
  edges : List MEdge
  faces : List MFace

/-- Embedding of `BMEdge.other_vert`: the endpoint of `e` other than `v`
(callers only pass an endpoint of `e`). -/
def otherVert (e : MEdge) (v : Nat) : Nat :=
  if e.v1 = v then e.v2 else e.v1

/-- Lookup of a face by id (`bmesh` face table access). -/
def faceById (bm : Mesh) (fid : Nat) : Option MFace :=
  bm.faces.find? (fun f => f.index == fid)

/-- Selection flag of the face with id `fid` (absent faces count unselected;
the source only queries faces linked from existing edges). -/
def face_selected (bm : Mesh) (fid : Nat) : Bool :=
  match faceById bm fid with
  | some f => f.select
  | none => false

/-- Inner `for f in e.link_faces` loop of `collect_edges` (source lines
127-134): counts selected linked faces, `break`ing as soon as the count
reaches 2; the `for`-`else` adds the edge exactly when the loop runs to
completion, i.e. when this function returns `true`. -/
def edge_kept (bm : Mesh) : List Nat → Nat → Bool
  | [], _ => true
  | fid :: fs, co =>
    if face_selected bm fid then
      if co + 1 = 2 then false
      else edge_kept bm fs (co + 1)
    else edge_kept bm fs co

/-- Embedding of `collect_edges` (source lines 123-139): the qualifying edge
set, as the sublist of `bm.edges` the Python `set` would hold, or `None` when
empty. -/
def collect_edges (bm : Mesh) : Option (List MEdge) :=
  let set_edges_orig := bm.edges.filter (fun e => e.select && edge_kept bm e.linkFaces 0)
  if set_edges_orig = [] then none else some set_edges_orig

/-- Number of selected faces among the linked-face ids `fids` (the quantity
`collect_edges` compares against 2). -/
def sel_face_count (bm : Mesh) (fids : List Nat) : Nat :=
  (fids.filter (face_selected bm)).length

theorem edge_kept_iff (bm : Mesh) (fids : List Nat) (co : Nat) (hco : co ≤ 1) :
    edge_kept bm fids co = true ↔ co + sel_face_count bm fids ≤ 1 := by
  induction fids generalizing co with
  | nil =>
    simp [edge_kept, sel_face_count]
    omega
  | cons fid fs ih =>
    by_cases hsel : face_selected bm fid
    · by_cases hco1 : co + 1 = 2
      · simp [edge_kept, hsel, hco1, sel_face_count, List.filter_cons]
        omega
      · have h1 : co + 1 ≤ 1 := by omega
        rw [show edge_kept bm (fid :: fs) co
            = edge_kept bm fs (co + 1) by simp [edge_kept, hsel, hco1]]
        rw [ih (co + 1) h1]
        simp [sel_face_count, List.filter_cons, hsel]
        omega
    · rw [show edge_kept bm (fid :: fs) co = edge_kept bm fs co by simp [edge_kept, hsel]]
      rw [ih co hco]
      simp [sel_face_count, List.filter_cons, hsel]

/-- Edges touching vertex `v`: the candidates `collect_loops` scans at a chain
end (for a well-formed mesh, `v.link_edges` restricted to the remaining set is
exactly this filter of the remaining set). -/
def edgeTouches (v : Nat) (e : MEdge) : Bool :=
  e.v1 == v || e.v2 == v

/-- Result of growing one chain in `collect_loops`: either the `return None`
taken when two candidate edges are found at once (source line 156), or the
completed loop (vertex list, edge list) together with the remaining edge
set. -/
inductive ChainRes where
  | overlap : ChainRes
  | done : List Nat → List MEdge → List MEdge → ChainRes
deriving DecidableEq

/-- The inner `while True` loop of `collect_loops` (source lines 150-178),
with explicit fuel (the loop consumes one remaining edge per iteration and
reverses at most once, so any fuel above `rem.length + 1` is never
exhausted).  State: current left/right chain ends, the alternating loop
`lp = [v, e, v, …, v]` split into its vertex and edge lists, the `reverse`
flag, and the remaining edge set `rem` in Python-set iteration order. -/
def chain_step : Nat → Nat → Nat → List Nat → List MEdge → Bool → List MEdge → Option ChainRes
  | 0, _, _, _, _, _, _ => none
  | n + 1, v_left, v_right, lpv, lpe, rev, rem =>
    match rem.filter (edgeTouches v_right) with
    | [] =>
      if v_right = v_left then some (.done lpv lpe rem)
      else if rev = false then
        chain_step n v_right v_left lpv.reverse lpe.reverse true rem
      else some (.done lpv lpe rem)
    | [e] =>
      chain_step n v_left (otherVert e v_right)
        (lpv ++ [otherVert e v_right]) (lpe ++ [e]) rev (rem.erase e)
    | _ :: _ :: _ => some .overlap

/-- Outer `while set_edges_copy` loop of `collect_loops` (source lines
145-178): pops the first edge of the remaining list, grows its chain, and
collects loops in discovery order.  Fuel counts pops; each pop removes at
least one edge, so `l.length + 1` fuel is never exhausted. -/
def collect_loops_aux : Nat → List MEdge → Option (List (List Nat × List MEdge))
  | 0, _ => none
  | _ + 1, [] => some []
  | n + 1, e0 :: rest =>
    match chain_step (rest.length + 2) e0.v1 e0.v2 [e0.v1, e0.v2] [e0] false rest with
    | none => none
    | some .overlap => none
    | some (.done lpv lpe rem) =>
      match collect_loops_aux n rem with
      | none => none
      | some lps => some ((lpv, lpe) :: lps)

/-- Embedding of `collect_loops` (source lines 141-179).  The input list is
the qualifying edge set in Python-set iteration order; `none` is the
"overlap detected" abort. -/
def collect_loops (l : List MEdge) : Option (List (List Nat × List MEdge)) :=
  collect_loops_aux (l.length + 1) l

/-- Source constant `ZERO_VEC` (line 44). -/
def ZERO_VEC : V3 := ⟨0, 0, 0⟩

/-- Source constant `X_UP` (line 41). -/
def X_UP : V3 := ⟨1, 0, 0⟩

/-- Source constant `Y_UP` (line 42). -/
def Y_UP : V3 := ⟨0, 1, 0⟩

/-- Source constant `Z_UP` (line 43). -/
def Z_UP : V3 := ⟨0, 0, 1⟩


theorem chain_step_edges_perm (n : Nat) (v_left v_right : Nat) (lpv lpv' : List Nat)
    (lpe rem lpe' rem' : List MEdge) (rev : Bool)
    (h : chain_step n v_left v_right lpv lpe rev rem = some (.done lpv' lpe' rem')) :
    (lpe' ++ rem').Perm (lpe ++ rem) := by
  induction n generalizing v_left v_right lpv lpe rev rem with
  | zero => simp [chain_step] at h
  | succ n ih =>
    simp only [chain_step] at h
    split at h
    · split_ifs at h with hvl hrev
      · simp only [Option.some.injEq, ChainRes.done.injEq] at h
        obtain ⟨-, h2, h3⟩ := h
        subst h2; subst h3
        exact List.Perm.refl _
      · exact (ih _ _ _ _ _ _ h).trans (List.Perm.append_right rem (List.reverse_perm lpe))
      · simp only [Option.some.injEq, ChainRes.done.injEq] at h
        obtain ⟨-, h2, h3⟩ := h
        subst h2; subst h3
        exact List.Perm.refl _
    · rename_i e heq
      have he : e ∈ rem := List.mem_of_mem_filter (heq ▸ List.mem_cons_self e [])
      refine (ih _ _ _ _ _ _ h).trans ?_
      rw [List.append_assoc]
      exact List.Perm.append_left lpe (List.perm_cons_erase he).symm
    · simp at h

theorem collect_loops_aux_perm (n : Nat) (l : List MEdge)
    (lps : List (List Nat × List MEdge))
    (h : collect_loops_aux n l = some lps) :
    ((lps.map Prod.snd).flatten).Perm l := by
  induction n generalizing l lps with
  | zero => simp [collect_loops_aux] at h
  | succ n ih =>
    cases l with
    | nil =>
      simp [collect_loops_aux] at h
      subst h
      simp
    | cons e0 rest =>
      simp only [collect_loops_aux] at h
      split at h
      · exact absurd h (by simp)
      · exact absurd h (by simp)
      · rename_i lpv lpe rem hc
        split at h
        · exact absurd h (by simp)
        · rename_i lps' hr
          simp only [Option.some.injEq] at h
          subst h
          have hp := chain_step_edges_perm _ _ _ _ _ _ _ _ _ _ hc
          have hj := ih rem lps' hr
          have step1 : ((((lpv, lpe) :: lps').map Prod.snd).flatten)
              = lpe ++ (lps'.map Prod.snd).flatten := by simp
          rw [step1]
          exact ((List.Perm.append_left lpe hj).trans hp).trans (by simp)

/-- C7: whenever `collect_loops` succeeds (returns a list rather than `None`),
every edge of the input qualifying edge set appears in exactly one returned
loop and exactly once within that loop, and no loop contains an edge outside
the input set: the concatenation of the loops' edge lists is a permutation of
the input list. -/
theorem C7_loops_consume_each_edge_once (l : List MEdge)
    (lps : List (List Nat × List MEdge))
    (h : collect_loops l = some lps) (hnd : l.Nodup) :
    ((lps.map Prod.snd).flatten).Perm l ∧
    (∀ e ∈ l, ((lps.map Prod.snd).flatten).count e = 1) ∧
    (∀ e, e ∉ l → ∀ lp ∈ lps, e ∉ lp.2) := by
  have hp := collect_loops_aux_perm _ _ _ h
  refine ⟨hp, ?_, ?_⟩
  · intro e he
    rw [hp.count_eq]
    exact List.count_eq_one_of_mem hnd he
  · intro e he lp hlp hmem
    exact he (hp.mem_iff.mp (List.mem_flatten.mpr ⟨lp.2, List.mem_map_of_mem Prod.snd hlp, hmem⟩))

/-- Single test edge for the C7 witness. -/
def e01 : MEdge := ⟨0, 0, 1, true, false, []⟩

theorem C7_witness :
    ((([([1, 0], [e01])]).map Prod.snd).flatten).Perm [e01] ∧
    (∀ e ∈ [e01], ((([([1, 0], [e01])]).map Prod.snd).flatten).count e = 1) ∧
    (∀ e, e ∉ [e01] → ∀ lp ∈ [([1, 0], [e01])], e ∉ lp.2) :=
  C7_loops_consume_each_edge_once [e01] [([1, 0], [e01])] (by decide) (by decide)

/-- Mesh with one selected edge bordered by three selected faces (a
non-manifold fan): the edge's selected-adjacent-face count is 3 ≠ 2. -/
def bm6 : Mesh :=
  ⟨[], [⟨0, 0, 1, true, false, [1, 2, 3]⟩],
   [⟨1, [], true, false, ZERO_VEC⟩, ⟨2, [], true, false, ZERO_VEC⟩,
    ⟨3, [], true, false, ZERO_VEC⟩]⟩

/-- C6 counterexample: in `bm6` the single edge is selected and has 3 ≠ 2
selected adjacent faces, so by the claim it qualifies and `collect_edges`
should return the singleton set; the code instead `break`s once the count
reaches 2 and returns `None` (no edge qualifies). -/
theorem C6_counterexample :
    collect_edges bm6 = none ∧
    bm6.edges.map (fun e => sel_face_count bm6 e.linkFaces) = [3] ∧
    bm6.edges.map (fun e => e.select) = [true] := by decide

/-- C6 as amended: an edge qualifies iff it is selected and has strictly
fewer than 2 selected adjacent faces (0 or 1); edges with 2 or more selected
adjacent faces — including 3 or more on non-manifold meshes — are excluded,
and `collect_edges` returns `None` exactly when no edge qualifies. -/
theorem C6_amended_boundary_rule (bm : Mesh) :
    (collect_edges bm = none ↔
      ∀ e ∈ bm.edges, ¬(e.select = true ∧ sel_face_count bm e.linkFaces < 2)) ∧
    (∀ s, collect_edges bm = some s →
      ∀ e, (e ∈ s ↔ e ∈ bm.edges ∧ e.select = true ∧ sel_face_count bm e.linkFaces < 2)) := by
  have hpred : ∀ e : MEdge, (e.select && edge_kept bm e.linkFaces 0) = true
      ↔ (e.select = true ∧ sel_face_count bm e.linkFaces < 2) := by
    intro e
    rw [Bool.and_eq_true]
    rw [edge_kept_iff bm e.linkFaces 0 (by omega)]
    constructor
    · rintro ⟨h1, h2⟩; exact ⟨h1, by omega⟩
    · rintro ⟨h1, h2⟩; exact ⟨h1, by omega⟩
  constructor
  · unfold collect_edges
    by_cases hL : bm.edges.filter (fun e => e.select && edge_kept bm e.linkFaces 0) = []
    · simp only [hL, if_pos]
      rw [List.filter_eq_nil_iff] at hL
      simp only [true_iff]
      intro e he hcontra
      exact absurd ((hpred e).mpr hcontra) (by simpa using hL e he)
    · simp only [hL, if_neg, if_false]
      have hex : ∃ e, e ∈ bm.edges ∧ (e.select && edge_kept bm e.linkFaces 0) = true := by
        obtain ⟨e, he⟩ := List.exists_mem_of_ne_nil _ hL
        exact ⟨e, (List.mem_filter.mp he).1, (List.mem_filter.mp he).2⟩
      obtain ⟨e, heM, hep⟩ := hex
      constructor
      · intro hcontra
        exact absurd hcontra (by simp)
      · intro hall
        exact absurd ((hpred e).mp hep) (hall e heM)
  · intro s hs e
    unfold collect_edges at hs
    by_cases hL : bm.edges.filter (fun e => e.select && edge_kept bm e.linkFaces 0) = []
    · simp [hL] at hs
    · simp only [hL, if_neg, if_false, Option.some.injEq] at hs
      subst hs
      rw [List.mem_filter]
      rw [hpred e]

/-- Single-edge mesh for the C6 witness: one selected edge, no faces. -/
def bm6w : Mesh := ⟨[], [⟨0, 0, 1, true, false, []⟩], []⟩

theorem C6_witness :
    (⟨0, 0, 1, true, false, []⟩ : MEdge) ∈ ([⟨0, 0, 1, true, false, []⟩] : List MEdge) :=
  ((C6_amended_boundary_rule bm6w).2 [⟨0, 0, 1, true, false, []⟩] (by decide)
    ⟨0, 0, 1, true, false, []⟩).mpr (by decide)

/-- Qualifying edge set for the C5 counterexample: a triangle `w-x-y` plus a
pendant edge `w-z`, so vertex `w = 0` has degree 3 within the set. -/
def cexC5 : List MEdge :=
  [⟨0, 0, 1, true, false, []⟩, ⟨1, 1, 2, true, false, []⟩,
   ⟨2, 2, 0, true, false, []⟩, ⟨3, 0, 3, true, false, []⟩]

/-- C5 counterexample: `cexC5` contains a vertex (id 0) of degree 3 within the
set, yet for the pop order given by this list `collect_loops` threads through
that vertex one edge at a time and returns a loop list, not `None` — the
claim's "whatever order edges are popped … returns None" fails. -/
theorem C5_counterexample :
    (cexC5.filter (edgeTouches 0)).length = 3 ∧ collect_loops cexC5 ≠ none := by decide

noncomputable section

open Classical

/-- Componentwise vector addition (`mathutils` `+`). -/
def vadd (a b : V3) : V3 := ⟨a.x + b.x, a.y + b.y, a.z + b.z⟩

/-- Componentwise vector subtraction (`mathutils` `-`). -/
def vsub (a b : V3) : V3 := ⟨a.x - b.x, a.y - b.y, a.z - b.z⟩

/-- Vector negation (`mathutils` unary `-`). -/
def vneg (a : V3) : V3 := ⟨-a.x, -a.y, -a.z⟩

/-- Scalar multiplication (`mathutils` `scalar * vector`). -/
def vsmul (c : ℝ) (a : V3) : V3 := ⟨c * a.x, c * a.y, c * a.z⟩

/-- Dot product (`Vector.dot`). -/
def dot (a b : V3) : ℝ := a.x * b.x + a.y * b.y + a.z * b.z

/-- Cross product (`Vector.cross`). -/
def cross (a b : V3) : V3 :=
  ⟨a.y * b.z - a.z * b.y, a.z * b.x - a.x * b.z, a.x * b.y - a.y * b.x⟩

/-- Vector length (`Vector.length`). -/
def vlen (a : V3) : ℝ := Real.sqrt (dot a a)

/-- Embedding of `Vector.normalize`/`normalized`: divides by the length when
it is nonzero, otherwise leaves the (zero) vector unchanged. -/
def vnormalize (a : V3) : V3 := if vlen a = 0 then a else vsmul (1 / vlen a) a

/-- Embedding of `Vector.project`: the projection of `a` onto `b`,
`b * (a·b / b·b)`. -/
def project (a b : V3) : V3 := vsmul (dot a b / dot b b) b

/-- Embedding of `Vector.angle`: `mathutils` computes `saacos` (arc cosine
with the argument clamped into [-1, 1]) of `a·b/(|a||b|)`, which is exactly
`Real.arccos` of that quotient; modelled total (zero-length inputs, on which
`mathutils` raises, never reach this in the source's call sites). -/
def vangle (a b : V3) : ℝ := Real.arccos (dot a b / (vlen a * vlen b))

/-- Source constant `ANGLE_90` (line 45). -/
def ANGLE_90 : ℝ := Real.pi / 2

/-- Source constant `ANGLE_180` (line 46). -/
def ANGLE_180 : ℝ := Real.pi

/-- Source constant `ANGLE_360` (line 47). -/
def ANGLE_360 : ℝ := 2 * Real.pi

/-- The string tags returned by `get_corner_type`, as a closed enumeration. -/
inductive Corner where
  | FOLDING : Corner
  | STRAIGHT : Corner
  | CONVEX : Corner
  | CONCAVE : Corner
deriving DecidableEq

/-- Embedding of `get_corner_type` (source lines 70-86). -/
def get_corner_type (vec_up vec_right2d vec_left2d : V3) (threshold : ℝ) : Corner :=
  if vec_right2d = ZERO_VEC ∧ vec_left2d = ZERO_VEC then .FOLDING
  else if vec_right2d = ZERO_VEC ∨ vec_left2d = ZERO_VEC then .STRAIGHT
  else if vangle vec_right2d vec_left2d < threshold then .FOLDING
  else if vangle vec_right2d vec_left2d > ANGLE_180 - threshold then .STRAIGHT
  else if dot (cross vec_right2d vec_left2d) vec_up > threshold then .CONVEX
  else .CONCAVE

/-- First four lines of `calc_tangent` (source lines 89-92): the pair
`(vec_right2d, vec_left2d)` handed to `get_corner_type`.  Source line 92
normalizes `vec_right2d` a second time (a no-op on an already-normalized
vector) instead of normalizing `vec_left2d`, which therefore stays
unnormalized; the repetition is kept verbatim below. -/
def calc_tangent_2d (vec_up vec_right vec_left : V3) : V3 × V3 :=
  let vec_right2d := vsub vec_right (project vec_right vec_up)
  let vec_right2d := vnormalize vec_right2d
  let vec_left2d := vsub vec_left (project vec_left vec_up)
  let vec_right2d := vnormalize vec_right2d
  (vec_right2d, vec_left2d)

/-- Embedding of `calc_tangent` (source lines 88-111). -/
def calc_tangent (vec_up vec_right vec_left : V3) (threshold : ℝ) : V3 :=
  let p := calc_tangent_2d vec_up vec_right vec_left
  let vec_right2d := p.1
  let vec_left2d := p.2
  let vec_tangent :=
    match get_corner_type vec_up vec_right2d vec_left2d threshold with
    | .FOLDING => ZERO_VEC
    | .STRAIGHT =>
      if vlen vec_right2d ≥ vlen vec_left2d then cross vec_right2d vec_up
      else cross (vneg vec_left2d) vec_up
    | .CONVEX => vneg (vadd vec_right2d vec_left2d)
    | .CONCAVE => vadd vec_right2d vec_left2d
  vnormalize vec_tangent

/-- Embedding of `get_factor` (source lines 113-121) with its default
combiner `func=max`, the only combiner the source ever uses. -/
def get_factor (vec_direction vec_right vec_left : V3) : ℝ :=
  if vec_direction = ZERO_VEC then 0
  else
    let denominator := max (Real.sin (vangle vec_direction vec_right))
                           (Real.sin (vangle vec_direction vec_left))
    if denominator ≠ 0 then 1 / denominator else 0

theorem vangle_nonneg (a b : V3) : 0 ≤ vangle a b := Real.arccos_nonneg _

theorem vangle_le_pi (a b : V3) : vangle a b ≤ Real.pi := Real.arccos_le_pi _

theorem sin_vangle_mem_Icc (a b : V3) : Real.sin (vangle a b) ∈ Set.Icc (0 : ℝ) 1 :=
  ⟨Real.sin_nonneg_of_nonneg_of_le_pi (vangle_nonneg a b) (vangle_le_pi a b),
   Real.sin_le_one _⟩

/-- C10: for every direction vector and every pair of edge vectors,
`get_factor` (with its default `max` combiner) returns either 0 or a value
that is at least 1: each sine of an angle lies in [0, 1], so a nonzero
denominator lies in (0, 1] and its reciprocal is ≥ 1.  The
corner-compensation factor never shrinks a displacement below its
unit-direction magnitude. -/
theorem C10_factor_zero_or_ge_one (vec_direction vec_right vec_left : V3) :
    get_factor vec_direction vec_right vec_left = 0 ∨
    1 ≤ get_factor vec_direction vec_right vec_left := by
  by_cases h0 : vec_direction = ZERO_VEC
  · left; simp [get_factor, h0]
  · by_cases hd : max (Real.sin (vangle vec_direction vec_right))
        (Real.sin (vangle vec_direction vec_left)) = 0
    · left; simp [get_factor, h0, hd]
    · right
      have hval : get_factor vec_direction vec_right vec_left
          = 1 / max (Real.sin (vangle vec_direction vec_right))
              (Real.sin (vangle vec_direction vec_left)) := by
        simp [get_factor, h0, hd]
      rw [hval]
      have hr := sin_vangle_mem_Icc vec_direction vec_right
      have hl := sin_vangle_mem_Icc vec_direction vec_left
      have hle : max (Real.sin (vangle vec_direction vec_right))
          (Real.sin (vangle vec_direction vec_left)) ≤ 1 := max_le hr.2 hl.2
      have hge : (0 : ℝ) ≤ max (Real.sin (vangle vec_direction vec_right))
          (Real.sin (vangle vec_direction vec_left)) :=
        le_trans hr.1 (le_max_left _ _)
      exact one_le_one_div (lt_of_le_of_ne hge (Ne.symm hd)) hle

/-- C3: at the input `vec_up = Z_UP`, `vec_right = X_UP`,
`vec_left = (0, 2, 0)`, the pair handed to `get_corner_type` by
`calc_tangent` has an unnormalized left component of length 2 — neither the
zero vector nor a unit vector — because source line 92 renormalizes
`vec_right2d` instead of `vec_left2d`.  This contradicts `get_corner_type`'s
own precondition comment ("All vectors in parameters should have been
normalized."). -/
theorem C3_left2d_not_normalized :
    (calc_tangent_2d Z_UP X_UP ⟨0, 2, 0⟩).2 = ⟨0, 2, 0⟩ ∧
    vlen ((calc_tangent_2d Z_UP X_UP ⟨0, 2, 0⟩).2) = 2 ∧
    (calc_tangent_2d Z_UP X_UP ⟨0, 2, 0⟩).1 = X_UP := by
  have hzz : dot Z_UP Z_UP = 1 := by norm_num [dot, Z_UP]
  have h2 : (calc_tangent_2d Z_UP X_UP ⟨0, 2, 0⟩).2 = ⟨0, 2, 0⟩ := by
    simp only [calc_tangent_2d, project, vsub, vsmul, hzz]
    norm_num [dot, Z_UP]
  refine ⟨h2, ?_, ?_⟩
  · rw [h2]
    show Real.sqrt (dot ⟨0, 2, 0⟩ ⟨0, 2, 0⟩) = 2
    rw [show dot ⟨0, 2, 0⟩ ⟨0, 2, 0⟩ = 2 ^ 2 by norm_num [dot]]
    exact Real.sqrt_sq (by norm_num)
  · have hproj : vsub X_UP (project X_UP Z_UP) = X_UP := by
      simp only [project, vsub, vsmul, hzz]
      norm_num [dot, Z_UP, X_UP]
    have hlen : vlen X_UP = 1 := by
      show Real.sqrt (dot X_UP X_UP) = 1
      rw [show dot X_UP X_UP = 1 by norm_num [dot, X_UP]]
      exact Real.sqrt_one
    have hnorm : vnormalize X_UP = X_UP := by
      unfold vnormalize
      rw [if_neg (by rw [hlen]; norm_num)]
      rw [hlen]
      norm_num [vsmul, X_UP]
    simp only [calc_tangent_2d, hproj, hnorm]

/-- A mirror plane as produced by `collect_mirror_planes`: reference point,
plane normal, and merge tolerance (`merge_threshold` of the modifier). -/
structure MirrorPlane where
  co : V3
  normal : V3
  limit : ℝ

/-- The only exception the embedded code can raise: Python's `KeyError` from
`set.remove` on an absent element (source line 384). -/
inductive PyErr where
  | keyError : PyErr
deriving DecidableEq

/-- Python `set.remove`: removes the element or raises `KeyError` when it is
not present. -/
def setRemove (s : List MEdge) (e : MEdge) : Except PyErr (List MEdge) :=
  if e ∈ s then .ok (s.erase e) else .error .keyError

/-- Lookup of a vertex by id. -/
def vertById (bm : Mesh) (vid : Nat) : Option MVert :=
  bm.verts.find? (fun v => v.index == vid)

/-- Coordinate of the vertex with id `vid` (a well-formed mesh always resolves
the lookup). -/
def vertCo (bm : Mesh) (vid : Nat) : V3 :=
  match vertById bm vid with
  | some v => v.co
  | none => ZERO_VEC

/-- Inner `for mp in mirror_planes` loop of `get_vert_mirror_pairs` (source
lines 372-384) for one edge `e`: threads the vertex→plane dictionary (an
association list where the head is the most recent write, matching the
last-write-wins lookup of a Python dict) and the shrinking edge set. -/
def vmp_plane_loop (bm : Mesh) (e : MEdge) :
    List MirrorPlane → List (Nat × MirrorPlane) → List MEdge →
    Except PyErr (List (Nat × MirrorPlane) × List MEdge)
  | [], d, s => .ok (d, s)
  | mp :: mps, d, s =>
    let v1_dist := |dot mp.normal (vsub (vertCo bm e.v1) mp.co)|
    let v2_dist := |dot mp.normal (vsub (vertCo bm e.v2) mp.co)|
    let d1 := if v1_dist ≤ mp.limit then (e.v1, mp) :: d else d
    let d2 := if v2_dist ≤ mp.limit then (e.v2, mp) :: d1 else d1
    if v1_dist ≤ mp.limit ∧ v2_dist ≤ mp.limit then
      match setRemove s e with
      | .ok s' => vmp_plane_loop bm e mps d2 s'
      | .error err => .error err
    else vmp_plane_loop bm e mps d2 s

/-- Outer `for e in set_edges_orig` loop of `get_vert_mirror_pairs`. -/
def vmp_edge_loop (bm : Mesh) (mps : List MirrorPlane) :
    List MEdge → List (Nat × MirrorPlane) → List MEdge →
    Except PyErr (List (Nat × MirrorPlane) × List MEdge)
  | [], d, s => .ok (d, s)
  | e :: es, d, s =>
    match vmp_plane_loop bm e mps d s with
    | .ok (d', s') => vmp_edge_loop bm mps es d' s'
    | .error err => .error err

/-- Embedding of `get_vert_mirror_pairs` (source lines 366-387): on a
nonempty plane list it builds the vertex→plane dictionary and removes every
edge whose both endpoints lie within a plane's tolerance; with no planes it
returns `None` and the untouched edge set.  `set_edges_copy.remove(e)` is
Python's raising `set.remove`, so an edge excluded twice raises `KeyError`. -/
def get_vert_mirror_pairs (bm : Mesh) (set_edges_orig : List MEdge)
    (mirror_planes : List MirrorPlane) :
    Except PyErr (Option (List (Nat × MirrorPlane)) × List MEdge) :=
  if mirror_planes = [] then .ok (none, set_edges_orig)
  else
    match vmp_edge_loop bm mirror_planes set_edges_orig [] set_edges_orig with
    | .ok (d, s) => .ok (some d, s)
    | .error err => .error err

/-- Mesh for the C4 failing input: one selected edge with both endpoints at
the origin region, lying within the tolerance of two distinct mirror planes
(X and Y), as happens for an edge on the intersection line of two mirror
axes. -/
def bm4 : Mesh :=
  ⟨[⟨0, ⟨0, 0, 0⟩, true, [0]⟩, ⟨1, ⟨0, 0, 1⟩, true, [0]⟩],
   [⟨0, 0, 1, true, false, []⟩], []⟩

/-- The two mirror planes of the C4 failing input. -/
def planes4 : List MirrorPlane := [⟨ZERO_VEC, X_UP, 1⟩, ⟨ZERO_VEC, Y_UP, 1⟩]

/-- C4: at the failing input (an edge whose endpoints are within the merge
tolerance of two different mirror planes), `get_vert_mirror_pairs` raises
`KeyError`: the first plane removes the edge from `set_edges_copy`, and the
second plane's `set_edges_copy.remove(e)` (source line 384) fails because the
edge is already gone.  The claim (and the spec's "none crash the host") is
the intent; the double removal is a code slip. -/
theorem C4_double_removal_raises :
    get_vert_mirror_pairs bm4 [⟨0, 0, 1, true, false, []⟩] planes4
      = .error .keyError := by
  have hco0 : vertCo bm4 0 = ⟨0, 0, 0⟩ := by
    simp [vertCo, vertById, bm4, List.find?]
  have hco1 : vertCo bm4 1 = ⟨0, 0, 1⟩ := by
    simp [vertCo, vertById, bm4, List.find?]
  simp only [get_vert_mirror_pairs, planes4]
  norm_num [vmp_edge_loop, vmp_plane_loop, hco0, hco1, dot, vsub, X_UP, Y_UP,
    ZERO_VEC, setRemove, List.erase]
  intro hplanes
  simp at hplanes

/-- Lookup of an edge by id. -/
def edgeById (bm : Mesh) (eid : Nat) : Option MEdge :=
  bm.edges.find? (fun e => e.index == eid)

/-- Linked-edge ids of the vertex with id `vid` (`v.link_edges`). -/
def linkEdgesOf (bm : Mesh) (vid : Nat) : List Nat :=
  match vertById bm vid with
  | some v => v.linkEdges
  | none => []

/-- Inner `for e in vert.link_edges` loop of `get_edge_rail` (source lines
271-281): scans the vertex's linked edges for inner edges (unhidden, outside
the loop's edge set, of nonzero length), counting them and keeping the most
recent inner vector; a second inner edge makes the rail ambiguous and
returns `None` at once. -/
def edge_rail_loop (bm : Mesh) (vert : Nat) (set_edges_orig : List MEdge) :
    List Nat → Nat → Option V3 → Option V3
  | [], _, vec_inner => vec_inner
  | eid :: rest, co_edge, vec_inner =>
    match edgeById bm eid with
    | some e =>
      if ¬e.hide ∧ e ∉ set_edges_orig then
        let vec := vsub (vertCo bm (otherVert e vert)) (vertCo bm vert)
        if vec ≠ ZERO_VEC then
          if co_edge + 1 = 2 then none
          else edge_rail_loop bm vert set_edges_orig rest (co_edge + 1) (some vec)
        else edge_rail_loop bm vert set_edges_orig rest co_edge vec_inner
      else edge_rail_loop bm vert set_edges_orig rest co_edge vec_inner
    | none => edge_rail_loop bm vert set_edges_orig rest co_edge vec_inner

/-- Embedding of `get_edge_rail` (source lines 268-281). -/
def get_edge_rail (bm : Mesh) (vert : Nat) (set_edges_orig : List MEdge) : Option V3 :=
  edge_rail_loop bm vert set_edges_orig (linkEdgesOf bm vert) 0 none

/-- Embedding of `get_mirror_rail` (source lines 389-398): the rail is
`vec_up × plane_normal`; when it is nonzero, `vec_up` is additionally
projected into the mirror plane and renormalized. -/
def get_mirror_rail (mirror_plane : MirrorPlane) (vec_up : V3) : Option V3 × V3 :=
  let p_norm := mirror_plane.normal
  let mirror_rail := cross vec_up p_norm
  if mirror_rail ≠ ZERO_VEC then
    (some mirror_rail, vnormalize (vsub vec_up (project vec_up p_norm)))
  else (none, vec_up)

/-- Embedding of `get_cross_rail` (source lines 283-299). -/
def get_cross_rail (vec_tan vec_edge_r vec_edge_l normal_r normal_l : V3)
    (threshold : ℝ) : Option V3 :=
  if vangle normal_r normal_l < threshold then none
  else
    let vec_cross0 := vnormalize (cross normal_r normal_l)
    let vec_cross := if dot vec_cross0 vec_tan < 0 then vneg vec_cross0 else vec_cross0
    let cos_min := min (dot vec_tan vec_edge_r) (dot vec_tan vec_edge_l)
    if dot vec_tan vec_cross ≥ cos_min then some vec_cross else none

/-- Python-dict lookup of the vertex→mirror-plane map (last write wins, which
is the head of the association list built by `vmp_plane_loop`). -/
def dictLookup (d : List (Nat × MirrorPlane)) (k : Nat) : Option MirrorPlane :=
  (d.find? (fun p => p.1 == k)).map Prod.snd

/-- Truthiness of `vert_mirror_pairs` in `if vert_mirror_pairs and VERT_END:`
(source line 459): `None` and the empty dict are both falsy. -/
def vmpTruthy (vmp : Option (List (Nat × MirrorPlane))) : Bool :=
  match vmp with
  | none => false
  | some d => !d.isEmpty

/-- Option flags consumed by `get_directions`. -/
structure Options where
  follow_face : Bool
  edge_rail : Bool
  edge_rail_only_end : Bool
  threshold : ℝ

/-- Rail-selection cascade of `get_directions` (source lines 457-471), run
for a vertex whose tangent is nonzero.  The mirror stage may set the rail and
update `vec_up`; the edge-rail stage, when it runs, assigns `rail`
unconditionally (source line 466, overwriting any mirror rail, with `None`
when the inner edge is missing or ambiguous); the cross-rail stage runs only
when the rail is still falsy (`None`) and both face normals exist.  Returns
the chosen rail and the (possibly mirror-projected) `vec_up`. -/
def rail_and_up (bm : Mesh) (v : Nat) (vert_end : Bool)
    (vmp : Option (List (Nat × MirrorPlane))) (set_edges : List MEdge)
    (normal_r normal_l : Option V3) (vec_tan vec_edge_r vec_edge_l vec_up : V3)
    (opts : Options) : Option V3 × V3 :=
  let st1 : Option V3 × V3 :=
    if vmpTruthy vmp ∧ vert_end then
      match dictLookup (vmp.getD []) v with
      | some mp => get_mirror_rail mp vec_up
      | none => (none, vec_up)
    else (none, vec_up)
  let rail2 : Option V3 :=
    if opts.edge_rail ∧ (¬opts.edge_rail_only_end ∨ vert_end) then
      get_edge_rail bm v set_edges
    else st1.1
  let rail3 : Option V3 :=
    if rail2 = none ∧ normal_r.isSome ∧ normal_l.isSome then
      get_cross_rail vec_tan vec_edge_r vec_edge_l (normal_r.getD ZERO_VEC)
        (normal_l.getD ZERO_VEC) opts.threshold
    else rail2
  (rail3, st1.2)

/-- Mesh for the C1 counterexample: vertex 0 at the origin with one unhidden
inner linked edge of direction (0, 0, 5) to vertex 1. -/
def bm1 : Mesh :=
  ⟨[⟨0, ⟨0, 0, 0⟩, true, [0]⟩, ⟨1, ⟨0, 0, 5⟩, true, []⟩],
   [⟨0, 0, 1, false, false, []⟩], []⟩

/-- Mirror plane (through the origin, normal X) for the C1 counterexample. -/
def mp1 : MirrorPlane := ⟨ZERO_VEC, X_UP, 1⟩

/-- Options for the C1 counterexample: `edge_rail` enabled, only-end off. -/
def optsC1 : Options := ⟨false, true, false, 1 / 10000⟩

/-- C1 counterexample: vertex 0 is a loop endpoint (`VERT_END`), is mapped to
mirror plane `mp1` whose mirror rail `Z_UP × X_UP = (0, 1, 0)` is nonzero, and
the tangent `Y_UP` is nonzero — yet with `edge_rail` enabled the rail chosen
is the inner-edge vector (0, 0, 5), not the mirror rail: the edge-rail stage
overwrites the mirror rail, so "the first source that yields a non-empty rail
wins" fails. -/
theorem C1_counterexample :
    (get_mirror_rail mp1 Z_UP).1 = some ⟨0, 1, 0⟩ ∧
    rail_and_up bm1 0 true (some [(0, mp1)]) [] none none
        Y_UP X_UP (vneg X_UP) Z_UP optsC1 = (some ⟨0, 0, 5⟩, Z_UP) ∧
    (⟨0, 0, 5⟩ : V3) ≠ ⟨0, 1, 0⟩ := by
  have hcross : cross Z_UP X_UP = ⟨0, 1, 0⟩ := by norm_num [cross, Z_UP, X_UP]
  have hmr : get_mirror_rail mp1 Z_UP = (some ⟨0, 1, 0⟩, Z_UP) := by
    have hproj : vsub Z_UP (project Z_UP X_UP) = Z_UP := by
      norm_num [project, vsub, vsmul, dot, Z_UP, X_UP]
    have hlen : vlen Z_UP = 1 := by
      show Real.sqrt (dot Z_UP Z_UP) = 1
      rw [show dot Z_UP Z_UP = 1 by norm_num [dot, Z_UP]]
      exact Real.sqrt_one
    have hnorm : vnormalize Z_UP = Z_UP := by
      unfold vnormalize
      rw [if_neg (by rw [hlen]; norm_num), hlen]
      norm_num [vsmul, Z_UP]
    simp only [get_mirror_rail, mp1, hcross, hproj, hnorm]
    rw [if_pos (by simp [ZERO_VEC])]
  have hco0 : vertCo bm1 0 = ⟨0, 0, 0⟩ := by simp [vertCo, vertById, bm1, List.find?]
  have hco1 : vertCo bm1 1 = ⟨0, 0, 5⟩ := by simp [vertCo, vertById, bm1, List.find?]
  have hle : linkEdgesOf bm1 0 = [0] := by simp [linkEdgesOf, vertById, bm1, List.find?]
  have heid : edgeById bm1 0 = some ⟨0, 0, 1, false, false, []⟩ := by
    simp [edgeById, bm1, List.find?]
  have hov : otherVert ⟨0, 0, 1, false, false, []⟩ 0 = 1 := by simp [otherVert]
  have her : get_edge_rail bm1 0 [] = some ⟨0, 0, 5⟩ := by
    rw [get_edge_rail, hle]
    norm_num [edge_rail_loop, heid, hov, hco0, hco1, vsub, ZERO_VEC]
  refine ⟨by rw [hmr], ?_, by norm_num⟩
  simp only [rail_and_up, vmpTruthy, dictLookup, List.find?, Option.getD,
    List.isEmpty, optsC1]
  norm_num [hmr, her]

/-- C1 as amended: the rail cascade tries mirror, then edge, then cross, but
the edge-rail stage, whenever it applies (edge-rail enabled and, if only-end
is set, at a loop endpoint), overwrites the mirror stage's rail with its own
result: the rail used is then the edge rail when one exists, otherwise the
cross rail (when both adjacent-face normals exist), otherwise none — entirely
independent of any mirror-plane mapping.  The mirror rail can only be used
when the edge-rail stage does not apply. -/
theorem C1_amended_edge_rail_overrides (bm : Mesh) (v : Nat) (vert_end : Bool)
    (vmp : Option (List (Nat × MirrorPlane))) (set_edges : List MEdge)
    (normal_r normal_l : Option V3) (vec_tan vec_edge_r vec_edge_l vec_up : V3)
    (opts : Options)
    (hstage : opts.edge_rail = true ∧
      (opts.edge_rail_only_end = false ∨ vert_end = true)) :
    (rail_and_up bm v vert_end vmp set_edges normal_r normal_l
        vec_tan vec_edge_r vec_edge_l vec_up opts).1
      = match get_edge_rail bm v set_edges with
        | some r => some r
        | none =>
          if normal_r.isSome ∧ normal_l.isSome then
            get_cross_rail vec_tan vec_edge_r vec_edge_l (normal_r.getD ZERO_VEC)
              (normal_l.getD ZERO_VEC) opts.threshold
          else none := by
  have hcond : (opts.edge_rail = true ∧ (¬opts.edge_rail_only_end = true ∨ vert_end = true)) := by
    rcases hstage with ⟨h1, h2⟩
    refine ⟨h1, ?_⟩
    rcases h2 with h2 | h2
    · left; simp [h2]
    · right; exact h2
  simp only [rail_and_up]
  rw [if_pos hcond]
  cases her : get_edge_rail bm v set_edges with
  | some r => simp
  | none =>
    by_cases hn : normal_r.isSome = true ∧ normal_l.isSome = true
    · simp [hn]
    · simp [hn]

theorem C1_witness :
    (rail_and_up bm1 0 true (some [(0, mp1)]) [] none none
        Y_UP X_UP (vneg X_UP) Z_UP optsC1).1 = some ⟨0, 0, 5⟩ := by
  rw [C1_amended_edge_rail_overrides bm1 0 true (some [(0, mp1)]) [] none none
    Y_UP X_UP (vneg X_UP) Z_UP optsC1 ⟨rfl, Or.inl rfl⟩]
  have hco0 : vertCo bm1 0 = ⟨0, 0, 0⟩ := by simp [vertCo, vertById, bm1, List.find?]
  have hco1 : vertCo bm1 1 = ⟨0, 0, 5⟩ := by simp [vertCo, vertById, bm1, List.find?]
  have hle : linkEdgesOf bm1 0 = [0] := by simp [linkEdgesOf, vertById, bm1, List.find?]
  have heid : edgeById bm1 0 = some ⟨0, 0, 1, false, false, []⟩ := by
    simp [edgeById, bm1, List.find?]
  have hov : otherVert ⟨0, 0, 1, false, false, []⟩ 0 = 1 := by simp [otherVert]
  have her : get_edge_rail bm1 0 [] = some ⟨0, 0, 5⟩ := by
    rw [get_edge_rail, hle]
    norm_num [edge_rail_loop, heid, hov, hco0, hco1, vsub, ZERO_VEC]
  rw [her]

/-- One Newell's-method summand of `calc_normal_from_verts` (source lines
60-62). -/
def newell_term (a b : V3) : V3 :=
  ⟨(a.y - b.y) * (a.z + b.z), (a.z - b.z) * (a.x + b.x), (a.x - b.x) * (a.y + b.y)⟩

/-- Embedding of `calc_normal_from_verts` (source lines 50-68): Newell's
method over the vertex ring (closing the ring by appending the first vertex
when the chain is open), normalized, with the fallback substituted when the
normal degenerates to zero. -/
def calc_normal_from_verts (bm : Mesh) (verts : List Nat) (fallback : V3) : V3 :=
  let verts_2 :=
    if verts.head? = verts.getLast? then verts.tail
    else verts.tail ++ [verts.headD 0]
  let cos1 := verts.map (vertCo bm)
  let cos2 := verts_2.map (vertCo bm)
  let normal := ((cos1.zip cos2).map (fun p => newell_term p.1 p.2)).foldl vadd ZERO_VEC
  let n := vnormalize normal
  if n = ZERO_VEC then fallback else n

/-- Inner `for f in e.link_faces` loop of `get_adj_faces` (source lines
255-261): keeps the most recent unhidden, non-degenerate face, stopping early
at a selected one. -/
def pick_adj_face (bm : Mesh) : List Nat → Option MFace → Option MFace
  | [], cur => cur
  | fid :: rest, cur =>
    match faceById bm fid with
    | some f =>
      if ¬f.hide ∧ f.normal ≠ ZERO_VEC then
        if f.select then some f
        else pick_adj_face bm rest (some f)
      else pick_adj_face bm rest cur
    | none => pick_adj_face bm rest cur

/-- Embedding of `get_adj_faces` (source lines 250-266): one optional
adjacent face per loop edge, or `None` when no edge has one (`adj_exist`
stays false exactly when every per-edge result is `None`). -/
def get_adj_faces (bm : Mesh) (edges : List MEdge) : Option (List (Option MFace)) :=
  let adj_faces := edges.map (fun e => pick_adj_face bm e.linkFaces none)
  if adj_faces.any Option.isSome then some adj_faces else none

/-- Python's `fv[fv.index(v1)-1]`: the ring element before the first
occurrence of `v1`, wrapping to the last element when `v1` is first (a
well-formed call always finds `v1` in the ring). -/
def ring_prev (fv : List Nat) (v1 : Nat) : Nat :=
  let i := fv.indexOf v1
  if i = 0 then fv.getLastD 0 else fv.getD (i - 1) 0

/-- The `for i, adj_f in enumerate(adj_faces)` loop of `reorder_loop`
(source lines 182-195): acts on the first non-`None` adjacent face and
`break`s. -/
def reorder_loop_go (verts : List Nat) (edges : List MEdge) (normal : V3)
    (adj_faces : List (Option MFace)) :
    Nat → List (Option MFace) → List Nat × List MEdge × V3 × List (Option MFace)
  | _, [] => (verts, edges, normal, adj_faces)
  | i, none :: rest => reorder_loop_go verts edges normal adj_faces (i + 1) rest
  | i, some f :: _ =>
    let v1 := verts.getD i 0
    let v2 := verts.getD (i + 1) 0
    let flipped :=
      if ring_prev f.verts v1 = v2 then
        (verts.reverse, edges.reverse, adj_faces.reverse)
      else (verts, edges, adj_faces)
    let normal1 := if dot normal f.normal < 0 then vneg normal else normal
    (flipped.1, flipped.2.1, normal1, flipped.2.2)

/-- Embedding of `reorder_loop` (source lines 181-196). -/
def reorder_loop (verts : List Nat) (edges : List MEdge) (normal : V3)
    (adj_faces : List (Option MFace)) :
    List Nat × List MEdge × V3 × List (Option MFace) :=
  reorder_loop_go verts edges normal adj_faces 0 adj_faces

/-- Index sequence `range_right` of `get_adj_ix` (source lines 202, 205),
with Python's `i %= len_edges` already applied. -/
def range_right_ixs (ix_start len : Nat) (half : Bool) : List Nat :=
  if half then (List.range (len - ix_start)).map (fun k => ix_start + k)
  else (List.range len).map (fun k => (ix_start + k) % len)

/-- Index sequence `range_left` of `get_adj_ix` (source lines 203, 206),
with Python's negative-step range and `i %= len_edges` already applied. -/
def range_left_ixs (ix_start len : Nat) (half : Bool) : List Nat :=
  if half then (List.range ix_start).map (fun k => ix_start - 1 - k)
  else (List.range len).map (fun k => (ix_start + len - 1 - k) % len)

/-- The `for i in range_…` scan of `get_adj_ix`: first index whose edge
vector is nonzero. -/
def find_nonzero_ix (vec_edges : List V3) : List Nat → Option Nat
  | [] => none
  | i :: rest =>
    if vec_edges.getD i ZERO_VEC ≠ ZERO_VEC then some i
    else find_nonzero_ix vec_edges rest

/-- Embedding of `get_adj_ix` (source lines 198-228): nearest nonzero edge
indices right and left of `ix_start`, wrapping on closed loops; on a half
loop an exhausted side falls back to the other side's (updated) index. -/
def get_adj_ix (ix_start : Nat) (vec_edges : List V3) (half_loop : Bool) :
    Option Nat × Option Nat :=
  let len := vec_edges.length
  let ixr := find_nonzero_ix vec_edges (range_right_ixs ix_start len half_loop)
  let ixl := find_nonzero_ix vec_edges (range_left_ixs ix_start len half_loop)
  if half_loop then
    let ixr2 := match ixr with | none => ixl | some i => some i
    let ixl2 := match ixl with | none => ixr2 | some i => some i
    (ixr2, ixl2)
  else (ixr, ixl)

/-- Embedding of `get_normals` (source lines 230-248). -/
def get_normals (lp_normal : V3) (ix_r ix_l : Nat)
    (adj_faces : Option (List (Option MFace))) : V3 × Option V3 × Option V3 :=
  let normal_r : Option V3 :=
    match adj_faces with
    | none => none
    | some afs => (afs.getD ix_r none).map MFace.normal
  let normal_l : Option V3 :=
    match adj_faces with
    | none => none
    | some afs => (afs.getD ix_l none).map MFace.normal
  match normal_r, normal_l with
  | some nr, some nl =>
    let vec_up := vnormalize (vadd nr nl)
    (if vec_up = ZERO_VEC then lp_normal else vec_up, some nr, some nl)
  | some nr, none => (nr, some nr, none)
  | none, some nl => (nl, none, some nl)
  | none, none => (lp_normal, none, none)

/-- Per-vertex body of the `for i in range(len_verts)` loop of
`get_directions` (source lines 441-481): edge vectors and per-vertex up from
the adjacent indices, tangent from `calc_tangent`, the rail cascade
(`rail_and_up`) with projection when a rail was chosen, and the two
`get_factor` magnitude scalings. -/
def direction_at (bm : Mesh) (v : Nat) (vert_end : Bool)
    (vmp : Option (List (Nat × MirrorPlane))) (set_edges : List MEdge)
    (lp_normal : V3) (adj_faces : Option (List (Option MFace)))
    (ix_r ix_l : Nat) (vec_edges : List V3) (opts : Options) : V3 × V3 :=
  let vec_edge_r := vec_edges.getD ix_r ZERO_VEC
  let vec_edge_l := vneg (vec_edges.getD ix_l ZERO_VEC)
  let gn := get_normals lp_normal ix_r ix_l adj_faces
  let vec_tan := calc_tangent gn.1 vec_edge_r vec_edge_l opts.threshold
  let tu : V3 × V3 :=
    if vec_tan ≠ ZERO_VEC then
      let ru := rail_and_up bm v vert_end vmp set_edges gn.2.1 gn.2.2
                  vec_tan vec_edge_r vec_edge_l gn.1 opts
      match ru.1 with
      | some rail =>
        (vnormalize (project vec_tan rail),
         vnormalize (vsub ru.2 (project ru.2 rail)))
      | none => (vec_tan, ru.2)
    else (vec_tan, gn.1)
  (vsmul (get_factor tu.1 vec_edge_r vec_edge_l) tu.1,
   vsmul (get_factor tu.2 vec_edge_r vec_edge_l) tu.2)

/-- Winding canonicalization of `get_directions` (source lines 412-417):
reverse the loop when its Newell normal opposes the global upward
reference. -/
def gd_canonicalize (bm : Mesh) (lp : List Nat × List MEdge)
    (vec_upward normal_fallback : V3) : List Nat × List MEdge × V3 :=
  let lp_normal0 := calc_normal_from_verts bm lp.1 normal_fallback
  if dot lp_normal0 vec_upward < 0 then
    (lp.1.reverse, lp.2.reverse, vneg lp_normal0)
  else (lp.1, lp.2, lp_normal0)

/-- The optional face-following reorder of `get_directions` (source lines
419-426). -/
def gd_follow_face (bm : Mesh) (opts : Options) (s1 : List Nat × List MEdge × V3) :
    List Nat × List MEdge × V3 × Option (List (Option MFace)) :=
  if opts.follow_face then
    match get_adj_faces bm s1.2.1 with
    | some afs =>
      let r := reorder_loop s1.1 s1.2.1 s1.2.2 afs
      (r.1, r.2.1, r.2.2.1, some r.2.2.2)
    | none => (s1.1, s1.2.1, s1.2.2, none)
  else (s1.1, s1.2.1, s1.2.2, none)

/-- Embedding of `get_directions` (source lines 400-483) over a loop from
`collect_loops` (`lp[::2]` and `lp[1::2]` are the two components of the
pair); its sequential reassignments of `verts`/`edges`/`lp_normal` are the
staged values `gd_canonicalize` and `gd_follow_face`.  An all-zero-length
loop makes `get_adj_ix` return no right index at some vertex and the whole
call returns `([], [])` (source line 449). -/
def get_directions (bm : Mesh) (lp : List Nat × List MEdge)
    (vec_upward normal_fallback : V3) (vmp : Option (List (Nat × MirrorPlane)))
    (opts : Options) : List Nat × List (V3 × V3) :=
  let set_edges := lp.2
  let s2 := gd_follow_face bm opts (gd_canonicalize bm lp vec_upward normal_fallback)
  let vec_edges := (s2.1.zip s2.2.1).map
    (fun p => vnormalize (vsub (vertCo bm (otherVert p.2 p.1)) (vertCo bm p.1)))
  let s3 : List Nat × Bool :=
    if s2.1.head? = s2.1.getLast? then (s2.1.dropLast, false) else (s2.1, true)
  let len_verts := s3.1.length
  let dirs : Option (List (V3 × V3)) :=
    (List.range len_verts).mapM (fun i =>
      let v := s3.1.getD i 0
      let vert_end := s3.2 && ((i == 0) || (i == len_verts - 1))
      match get_adj_ix i vec_edges s3.2 with
      | (none, _) => none
      | (some ix_r, oixl) =>
        some (direction_at bm v vert_end vmp set_edges s2.2.2.1 s2.2.2.2
          ix_r (oixl.getD ix_r) vec_edges opts))
  match dirs with
  | none => ([], [])
  | some ds => (s3.1, ds)

/-- The warnings `self.report({'WARNING'}, …)` can emit. -/
inductive Warning where
  | noEdges : Warning
  | allEdgesMirrored : Warning
  | overlap : Warning
deriving DecidableEq

/-- The operator's `geometry_mode` enum. -/
inductive GeoMode where
  | offset : GeoMode
  | extrude : GeoMode
  | move : GeoMode
deriving DecidableEq

/-- The operator's `depth_mode` enum. -/
inductive DepthMode where
  | angle : DepthMode
  | depth : DepthMode
deriving DecidableEq

/-- The operator properties read by `get_offset_infos` and
`do_offset_and_free`. -/
structure OpProps where
  geometry_mode : GeoMode
  width : ℝ
  flip_width : Bool
  depth : ℝ
  flip_depth : Bool
  depth_mode : DepthMode
  angle : ℝ
  flip_angle : Bool
  follow_face : Bool
  mirror_modifier : Bool
  edge_rail : Bool
  edge_rail_only_end : Bool
  threshold : ℝ
  caches_valid : Bool

/-- The operator-instance cache fields `_cache_offset_infos` and
`_cache_edges_orig_ixs`. -/
structure Caches where
  offset_infos : Option (List (List Nat × List (V3 × V3)))
  edges_orig_ixs : Option (List Nat)

/-- The three shapes `get_offset_infos` can return: `(None, None)` meaning
"use the cache", `(False, False)` meaning abort, or the computed infos and
edge set. -/
inductive InfosResult where
  | useCache : InfosResult
  | failed : InfosResult
  | computed : List (List Nat × List (V3 × V3)) → List MEdge → InfosResult

/-- Default vertex used only to give positional lookups a total type. -/
def defaultVert : MVert := ⟨0, ZERO_VEC, false, []⟩

/-- Default edge used only to give positional lookups a total type. -/
def defaultEdge : MEdge := ⟨0, 0, 0, false, false, []⟩

/-- Embedding of `OffsetEdges.get_offset_infos` (source lines 578-637).
`mirror_planes` stands for the result of `collect_mirror_planes(edit_object)`
(source lines 342-364), whose matrix plumbing reads modifier state external
to the engine.  The warning list records the `self.report` calls in order;
note that the "All selected edges are on mirror planes." report (source line
597) does not return: computation continues with the emptied edge set. -/
def get_offset_infos (props : OpProps) (caches : Caches) (bm : Mesh)
    (mirror_planes : List MirrorPlane) :
    Except PyErr (InfosResult × Caches × List Warning) :=
  if props.caches_valid ∧ caches.offset_infos ≠ none then .ok (.useCache, caches, [])
  else
    match collect_edges bm with
    | none => .ok (.failed, caches, [.noEdges])
    | some set_edges_orig =>
      let mirrored : Except PyErr ((Option (List (Nat × MirrorPlane))) × List MEdge × List Warning) :=
        if props.mirror_modifier then
          match get_vert_mirror_pairs bm set_edges_orig mirror_planes with
          | .error err => .error err
          | .ok (vmp, s') =>
            .ok (vmp, s', if s' = [] then [.allEdgesMirrored] else [])
        else .ok (none, set_edges_orig, [])
      match mirrored with
      | .error err => .error err
      | .ok (vmp, s', ws) =>
        match collect_loops s' with
        | none => .ok (.failed, caches, ws ++ [.overlap])
        | some loops =>
          let vec_upward := vnormalize (vadd (vadd X_UP Y_UP) Z_UP)
          let opts : Options :=
            ⟨props.follow_face, props.edge_rail, props.edge_rail_only_end, props.threshold⟩
          let offset_infos := loops.foldl (fun acc lp =>
            let vd := get_directions bm lp vec_upward Z_UP vmp opts
            if vd.1 ≠ [] then acc ++ [vd] else acc) []
          let caches' : Caches :=
            ⟨some (offset_infos.map (fun p =>
               (p.1.map (fun vtx => ((vertById bm vtx).getD defaultVert).index), p.2))),
             some (s'.map MEdge.index)⟩
          .ok (.computed offset_infos s', caches', ws)

/-- The geometry dictionary built by `extrude_edges` (source lines 321-325):
new vertices, new boundary edges, new faces, and the side edges joining old
to new. -/
structure GeomEx where
  verts : List Nat
  edges : List MEdge
  faces : List Nat
  side : List Nat

/-- Modelled from the spec: the host primitive `bmesh.ops.extrude_edge_only`
(spec §6, `extrude(edges) -> {new_vertices, new_edges, new_faces,
side_edges}`) is not part of this repository's sources.  Following the
spec's data model, it duplicates each vertex of the input edges at the same
position, creates one new boundary edge per input edge between the
duplicates, one quad face per input edge, and one side edge joining each
original vertex to its duplicate; it does not alter flags or coordinates of
pre-existing elements (the spec attributes every selection change to the
cleanup step, §4.4).  The result is packaged as the `geom` dictionary of
`extrude_edges` (source lines 316-327). -/
def extrude_edges (bm : Mesh) (edges_orig : List MEdge) : Mesh × GeomEx :=
  let vbase := bm.verts.length
  let ebase := bm.edges.length
  let fbase := bm.faces.length
  let origVs := ((edges_orig.map (fun e => [e.v1, e.v2])).flatten).dedup
  let dup : Nat → Nat := fun vtx => vbase + origVs.indexOf vtx
  let newEdges := edges_orig.mapIdx (fun i e =>
    (⟨ebase + i, dup e.v1, dup e.v2, e.select, false, [fbase + i]⟩ : MEdge))
  let sideEdges := origVs.mapIdx (fun i vtx =>
    (⟨ebase + edges_orig.length + i, vtx, vbase + i, false, false, []⟩ : MEdge))
  let newVerts := origVs.mapIdx (fun i vtx =>
    (⟨vbase + i, vertCo bm vtx, false,
      ((newEdges.filter (fun e => e.v1 = vbase + i ∨ e.v2 = vbase + i)).map MEdge.index)
        ++ [ebase + edges_orig.length + i]⟩ : MVert))
  let newFaces := edges_orig.mapIdx (fun i e =>
    (⟨fbase + i, [e.v1, e.v2, dup e.v2, dup e.v1], false, false, ZERO_VEC⟩ : MFace))
  let verts' := bm.verts.map (fun v =>
    if v.index ∈ origVs then
      { v with linkEdges := v.linkEdges ++ [ebase + edges_orig.length + origVs.indexOf v.index] }
    else v)
  (⟨verts' ++ newVerts, bm.edges ++ newEdges ++ sideEdges, bm.faces ++ newFaces⟩,
   ⟨newVerts.map MVert.index, newEdges, newFaces.map MFace.index, sideEdges.map MEdge.index⟩)

/-- Coordinate update of one vertex (`v.co += …`). -/
def moveVert (bm : Mesh) (vid : Nat) (delta : V3) : Mesh :=
  { bm with verts := bm.verts.map (fun v =>
      if v.index = vid then { v with co := vadd v.co delta } else v) }

/-- Embedding of `move_verts` (source lines 301-314): with extruded geometry
each vertex to move is replaced by the duplicate at the far end of its side
edge (`verts_ex`); a vertex without a side edge contributes nothing, exactly
as the Python `zip` then silently truncates.  Each vertex is displaced by
`width·tan + depth·up`. -/
def move_verts (width depth : ℝ) (bm : Mesh) (verts : List Nat)
    (directions : List (V3 × V3)) (geom_ex : Option GeomEx) : Mesh :=
  let verts' :=
    match geom_ex with
    | some g => verts.filterMap (fun vtx =>
        ((linkEdgesOf bm vtx).find? (fun eid => g.side.contains eid)).map
          (fun eid => match edgeById bm eid with
            | some e => otherVert e vtx
            | none => vtx))
    | none => verts
  (verts'.zip directions).foldl
    (fun b p => moveVert b p.1 (vadd (vsmul width p.2.1) (vsmul depth p.2.2))) bm

/-- Modelled from the spec: the host primitive `bmesh.ops.delete(geom,
context=2)` (spec §6, `delete(geometry_set)`): removes the given side edges
and new faces and scrubs dangling adjacency references. -/
def deleteGeom (bm : Mesh) (edgeIds faceIds : List Nat) : Mesh :=
  ⟨bm.verts.map (fun v =>
      { v with linkEdges := v.linkEdges.filter (fun i => !edgeIds.contains i) }),
   (bm.edges.filter (fun e => !edgeIds.contains e.index)).map
     (fun e => { e with linkFaces := e.linkFaces.filter (fun i => !faceIds.contains i) }),
   bm.faces.filter (fun f => !faceIds.contains f.index)⟩

/-- Embedding of `clean` (source lines 329-340): deselects every face; with
extruded geometry selects the new boundary edges and, in offset mode, deletes
the side edges and the new faces; otherwise (move mode) re-selects the
original edges.  No statement in the source deselects the original edges. -/
def clean (bm : Mesh) (mode : GeoMode) (edges_orig : List MEdge)
    (geom_ex : Option GeomEx) : Mesh :=
  let bm1 : Mesh := { bm with faces := bm.faces.map (fun f => { f with select := false }) }
  match geom_ex with
  | some g =>
    let bm2 : Mesh := { bm1 with edges := bm1.edges.map (fun e =>
        if (g.edges.map MEdge.index).contains e.index then { e with select := true } else e) }
    if mode = .offset then deleteGeom bm2 g.side g.faces else bm2
  | none =>
    { bm1 with edges := bm1.edges.map (fun e =>
        if (edges_orig.map MEdge.index).contains e.index then { e with select := true } else e) }

/-- Embedding of `OffsetEdges.do_offset_and_free` (source lines 639-683).
With `offset_infos = None` the cached index tuples are resolved positionally
against the fresh `bm` (`tuple(bm.verts)[ix]`, `tuple(bm.edges)[ix]`); a
resolved object is used through its identity, i.e. its `index` field. -/
def do_offset_and_free (props : OpProps) (caches : Caches) (bm : Mesh)
    (offset_infos : Option (List (List Nat × List (V3 × V3))))
    (set_edges_orig : Option (List MEdge)) : Mesh :=
  let verts_directions : List (List Nat × List (V3 × V3)) :=
    match offset_infos with
    | none =>
      (caches.offset_infos.getD []).map (fun p =>
        (p.1.map (fun ix => (bm.verts.getD ix defaultVert).index), p.2))
    | some infos => infos
  let edges_orig : List MEdge :=
    match offset_infos with
    | none => (caches.edges_orig_ixs.getD []).map (fun ix => bm.edges.getD ix defaultEdge)
    | some _ => set_edges_orig.getD []
  let wd : ℝ × ℝ :=
    if props.depth_mode = .angle then
      let w := if ¬props.flip_width then props.width else -props.width
      let a := if ¬props.flip_angle then props.angle else -props.angle
      (w * Real.cos a, w * Real.sin a)
    else
      (if ¬props.flip_width then props.width else -props.width,
       if ¬props.flip_depth then props.depth else -props.depth)
  let ext : Mesh × Option GeomEx :=
    if props.geometry_mode = .move then (bm, none)
    else
      let r := extrude_edges bm edges_orig
      (r.1, some r.2)
  let bm2 := verts_directions.foldl
    (fun b p => move_verts wd.1 wd.2 b p.1 p.2 ext.2) ext.1
  clean bm2 props.geometry_mode edges_orig ext.2

/-- Outcome of one invocation (`{'FINISHED'}` / `{'CANCELLED'}`). -/
inductive ExecResult where
  | finished : ExecResult
  | cancelled : ExecResult
deriving DecidableEq

/-- Embedding of `OffsetEdges.execute` (source lines 685-703): the edit-mode
toggles and the `from_mesh`/`to_mesh` round-trip are identities on the mesh
model; the returned mesh is the committed state.  `offset_infos is False`
(and only that) cancels; an empty list of infos is not `False` and
proceeds. -/
def execute (props : OpProps) (caches : Caches) (bm : Mesh)
    (mirror_planes : List MirrorPlane) :
    Except PyErr (ExecResult × Mesh × List Warning) :=
  match get_offset_infos props caches bm mirror_planes with
  | .error err => .error err
  | .ok (.failed, _, ws) => .ok (.cancelled, bm, ws)
  | .ok (.useCache, caches', ws) =>
    .ok (.finished, do_offset_and_free props caches' bm none none, ws)
  | .ok (.computed infos s', caches', ws) =>
    .ok (.finished, do_offset_and_free props caches' bm (some infos) (some s'), ws)

theorem chain_step_immediate_overlap (e0 : MEdge) (rest : List MEdge)
    (h : 2 ≤ (rest.filter (edgeTouches e0.v2)).length) :
    chain_step (rest.length + 2) e0.v1 e0.v2 [e0.v1, e0.v2] [e0] false rest
      = some .overlap := by
  show chain_step (rest.length + 1 + 1) e0.v1 e0.v2 [e0.v1, e0.v2] [e0] false rest
      = some .overlap
  cases hf : rest.filter (edgeTouches e0.v2) with
  | nil => rw [hf] at h; simp at h
  | cons a tail =>
    cases tail with
    | nil => rw [hf] at h; simp at h
    | cons b t2 =>
      simp only [chain_step]
      rw [hf]

/-- C5 as amended: `collect_loops` aborts with `None` when, at a chain-growth
step, the chain's end vertex has two or more remaining set edges — in
particular whenever the first popped edge's right vertex has two or more
other set edges — and the operation then cancels with the overlap warning and
the mesh unchanged.  A vertex of degree ≥ 3 within the set guarantees this
only for such pop orders; other pop orders can thread through the vertex one
edge at a time and return loops (see the counterexample), so the outcome is
pop-order dependent. -/
theorem C5_amended_overlap_is_order_dependent (e0 : MEdge) (rest : List MEdge)
    (h : 2 ≤ (rest.filter (edgeTouches e0.v2)).length) :
    collect_loops (e0 :: rest) = none ∧
    (∀ (props : OpProps) (caches : Caches) (bm : Mesh),
      props.caches_valid = false → props.mirror_modifier = false →
      collect_edges bm = some (e0 :: rest) →
      execute props caches bm [] = .ok (.cancelled, bm, [.overlap])) := by
  have hcs := chain_step_immediate_overlap e0 rest h
  have h1 : collect_loops (e0 :: rest) = none := by
    show collect_loops_aux ((e0 :: rest).length + 1) (e0 :: rest) = none
    simp only [List.length_cons]
    show collect_loops_aux (rest.length + 1 + 1) (e0 :: rest) = none
    simp only [collect_loops_aux]
    rw [hcs]
  refine ⟨h1, ?_⟩
  intro props caches bm hcv hmm hce
  simp [execute, get_offset_infos, hce, hcv, hmm, h1]

/-- Operator properties for the C5 witness (move mode, no mirror, cache
invalid). -/
def propsW5 : OpProps :=
  ⟨.move, 1, false, 0, false, .depth, 0, false, false, false, false, false, 1 / 10000, false⟩

/-- Empty caches. -/
def caches0 : Caches := ⟨none, none⟩

/-- Mesh for the C5 witness: three selected edges meeting at vertex 1. -/
def bmW5 : Mesh :=
  ⟨[], [⟨0, 0, 1, true, false, []⟩, ⟨1, 1, 2, true, false, []⟩,
        ⟨2, 1, 3, true, false, []⟩], []⟩

theorem C5_witness :
    collect_loops [⟨0, 0, 1, true, false, []⟩, ⟨1, 1, 2, true, false, []⟩,
        ⟨2, 1, 3, true, false, []⟩] = none ∧
    execute propsW5 caches0 bmW5 [] = .ok (.cancelled, bmW5, [.overlap]) := by
  have T := C5_amended_overlap_is_order_dependent ⟨0, 0, 1, true, false, []⟩
    [⟨1, 1, 2, true, false, []⟩, ⟨2, 1, 3, true, false, []⟩] (by decide)
  exact ⟨T.1, T.2 propsW5 caches0 bmW5 rfl rfl (by decide)⟩

theorem extrude_edges_nil (bm : Mesh) :
    extrude_edges bm [] = (bm, ⟨[], [], [], []⟩) := by
  cases bm with
  | mk vs es fs => simp [extrude_edges]

theorem clean_empty (bm : Mesh) (mode : GeoMode) :
    clean bm mode [] (if mode = .move then none else some ⟨[], [], [], []⟩)
      = { bm with faces := bm.faces.map (fun f => { f with select := false }) } := by
  by_cases hm : mode = .move
  · simp [hm, clean]
  · rw [if_neg hm]
    by_cases ho : mode = .offset
    · subst ho
      simp [clean, deleteGeom]
    · simp [clean, ho, deleteGeom]

theorem do_offset_empty (props : OpProps) (caches : Caches) (bm : Mesh) :
    do_offset_and_free props caches bm (some []) (some [])
      = { bm with faces := bm.faces.map (fun f => { f with select := false }) } := by
  by_cases hm : props.geometry_mode = .move
  · simp [do_offset_and_free, hm, clean]
  · by_cases ho : props.geometry_mode = .offset
    · simp [do_offset_and_free, hm, ho, extrude_edges_nil, clean, deleteGeom]
    · simp [do_offset_and_free, hm, ho, extrude_edges_nil, clean, deleteGeom]

/-- C2 as amended: when mirror-plane exclusion empties the qualifying edge
set, the warning is reported but the operation does not abort: it continues
with the empty edge set, performs no extrusion, no deletion and no vertex
displacement, yet deselects every face and commits that change, and the
invocation returns FINISHED (success), not CANCELLED. -/
theorem C2_amended_warning_but_no_abort (props : OpProps) (caches : Caches)
    (bm : Mesh) (planes : List MirrorPlane) (s : List MEdge)
    (vmp : Option (List (Nat × MirrorPlane)))
    (hcv : props.caches_valid = false)
    (hmm : props.mirror_modifier = true)
    (hce : collect_edges bm = some s)
    (hvm : get_vert_mirror_pairs bm s planes = .ok (vmp, [])) :
    execute props caches bm planes
      = .ok (.finished,
          { bm with faces := bm.faces.map (fun f => { f with select := false }) },
          [.allEdgesMirrored]) := by
  have hgoi : get_offset_infos props caches bm planes
      = .ok (.computed [] [], ⟨some [], some []⟩, [.allEdgesMirrored]) := by
    simp [get_offset_infos, hcv, hce, hmm, hvm, collect_loops, collect_loops_aux]
  simp [execute, hgoi, do_offset_empty]

/-- Mesh for the C2 counterexample and witness: one selected edge whose two
endpoints lie on the X mirror plane, plus one selected (unlinked) face whose
flag the operation will clear. -/
def bm2c : Mesh :=
  ⟨[⟨0, ⟨0, 0, 0⟩, true, [0]⟩, ⟨1, ⟨0, 1, 0⟩, true, [0]⟩],
   [⟨0, 0, 1, true, false, []⟩], [⟨0, [], true, false, ZERO_VEC⟩]⟩

/-- One X mirror plane through the origin with merge tolerance 1. -/
def planes2 : List MirrorPlane := [⟨ZERO_VEC, X_UP, 1⟩]

/-- Operator properties for C2: move mode, mirror modifier on. -/
def props2 : OpProps :=
  ⟨.move, 1, false, 0, false, .depth, 0, false, false, true, false, false, 1 / 10000, false⟩

theorem gvmp_bm2c :
    get_vert_mirror_pairs bm2c [⟨0, 0, 1, true, false, []⟩] planes2
      = .ok (some [(1, ⟨ZERO_VEC, X_UP, 1⟩), (0, ⟨ZERO_VEC, X_UP, 1⟩)], []) := by
  have hco0 : vertCo bm2c 0 = ⟨0, 0, 0⟩ := by simp [vertCo, vertById, bm2c, List.find?]
  have hco1 : vertCo bm2c 1 = ⟨0, 1, 0⟩ := by simp [vertCo, vertById, bm2c, List.find?]
  simp only [get_vert_mirror_pairs, planes2]
  rw [if_neg (by simp)]
  norm_num [vmp_edge_loop, vmp_plane_loop, hco0, hco1, dot, vsub, X_UP, ZERO_VEC, setRemove]

/-- C2 counterexample: with every qualifying edge on the mirror plane the
invocation reports the warning but then finishes successfully (FINISHED, not
CANCELLED) and changes the mesh: the selected face has been deselected.  This
falsifies "aborts, leaves the mesh unchanged, no selection-flag change, ends
cancelled". -/
theorem C2_counterexample :
    execute props2 caches0 bm2c planes2
      = .ok (.finished, ⟨bm2c.verts, bm2c.edges, [⟨0, [], false, false, ZERO_VEC⟩]⟩,
          [.allEdgesMirrored]) ∧
    bm2c.faces.map MFace.select = [true] := by
  have hgoi : get_offset_infos props2 caches0 bm2c planes2
      = .ok (.computed [] [], ⟨some [], some []⟩, [.allEdgesMirrored]) := by
    simp [get_offset_infos, gvmp_bm2c, collect_loops, collect_loops_aux,
      show collect_edges bm2c = some [⟨0, 0, 1, true, false, []⟩] by decide, props2]
  constructor
  · have hdo := do_offset_empty props2 ⟨some [], some []⟩ bm2c
    simp only [execute, hgoi, hdo]
    simp [bm2c]
  · decide

theorem C2_witness :
    execute props2 caches0 bm2c planes2
      = .ok (.finished,
          { bm2c with faces := bm2c.faces.map (fun f => { f with select := false }) },
          [.allEdgesMirrored]) :=
  C2_amended_warning_but_no_abort props2 caches0 bm2c planes2
    [⟨0, 0, 1, true, false, []⟩]
    (some [(1, ⟨ZERO_VEC, X_UP, 1⟩), (0, ⟨ZERO_VEC, X_UP, 1⟩)])
    rfl rfl (by decide) gvmp_bm2c

/-- Mesh after extrusion for C9: edge 0 is the selected original, edge 1 the
new boundary edge created by the extrusion, plus one selected face. -/
def bm9 : Mesh :=
  ⟨[], [⟨0, 0, 1, true, false, []⟩, ⟨1, 2, 3, false, false, []⟩],
   [⟨0, [], true, false, ZERO_VEC⟩]⟩

/-- The extrusion geometry for C9: edge 1 is the new boundary edge; no side
edges or faces are relevant to the selection flags. -/
def g9 : GeomEx := ⟨[2, 3], [⟨1, 2, 3, false, false, []⟩], [], []⟩

/-- C9 counterexample: after the extrude-mode cleanup (the only step of a
successful invocation that touches selection flags), the new boundary edge is
selected — but the original edge 0 of the qualifying set is still selected
too: `clean` (source lines 329-340) never deselects the original edges, so
"every original edge … is deselected" fails. -/
theorem C9_counterexample :
    (clean bm9 .extrude [⟨0, 0, 1, true, false, []⟩] (some g9)).edges.map
        (fun e => (e.index, e.select)) = [(0, true), (1, true)] ∧
    (⟨0, 0, 1, true, false, []⟩ : MEdge).select = true := by
  constructor
  · simp [clean, bm9, g9]
  · rfl


theorem clean_extrude_edges (bm : Mesh) (eo : List MEdge) (g : GeomEx) :
    (clean bm .extrude eo (some g)).edges
      = bm.edges.map (fun e =>
          if (g.edges.map MEdge.index).contains e.index then { e with select := true }
          else e) := by
  simp [clean]

theorem clean_extrude_faces (bm : Mesh) (eo : List MEdge) (g : GeomEx) :
    (clean bm .extrude eo (some g)).faces
      = bm.faces.map (fun f => { f with select := false }) := by
  simp [clean]

theorem clean_offset_edges (bm : Mesh) (eo : List MEdge) (g : GeomEx) :
    (clean bm .offset eo (some g)).edges
      = ((bm.edges.map (fun e =>
            if (g.edges.map MEdge.index).contains e.index then { e with select := true }
            else e)).filter (fun e => !g.side.contains e.index)).map
          (fun e => { e with linkFaces := e.linkFaces.filter (fun i => !g.faces.contains i) }) := by
  simp [clean, deleteGeom]

theorem clean_offset_faces (bm : Mesh) (eo : List MEdge) (g : GeomEx) :
    (clean bm .offset eo (some g)).faces
      = (bm.faces.map (fun f => { f with select := false })).filter
          (fun f => !g.faces.contains f.index) := by
  simp [clean, deleteGeom]

/-- C9 as amended: after the cleanup of an extrude- or offset-mode
invocation, every face is deselected and every new boundary edge is selected,
but an edge's selection flag is otherwise untouched: every surviving edge
that is not a new boundary edge keeps its previous flag — in particular the
original edges of the qualifying set remain selected, not deselected. -/
theorem C9_amended_originals_stay_selected (bm : Mesh) (mode : GeoMode)
    (edges_orig : List MEdge) (g : GeomEx)
    (hmode : mode = .extrude ∨ mode = .offset) :
    (∀ f ∈ (clean bm mode edges_orig (some g)).faces, f.select = false) ∧
    (∀ e ∈ (clean bm mode edges_orig (some g)).edges,
      (g.edges.map MEdge.index).contains e.index = true → e.select = true) ∧
    (∀ e ∈ bm.edges, (g.edges.map MEdge.index).contains e.index = false →
      (mode = .extrude ∨ g.side.contains e.index = false) →
      ∃ e', e' ∈ (clean bm mode edges_orig (some g)).edges ∧
        e'.index = e.index ∧ e'.select = e.select) := by
  rcases hmode with hmode | hmode
  · subst hmode
    refine ⟨?_, ?_, ?_⟩
    · intro f hf
      rw [clean_extrude_faces] at hf
      obtain ⟨f0, -, rfl⟩ := List.mem_map.mp hf
      rfl
    · intro e he hc
      rw [clean_extrude_edges] at he
      obtain ⟨e0, -, rfl⟩ := List.mem_map.mp he
      by_cases h0 : (g.edges.map MEdge.index).contains e0.index = true
      · rw [if_pos h0]
      · rw [if_neg h0] at hc ⊢
        exact absurd hc h0
    · intro e he hc _
      refine ⟨e, ?_, rfl, rfl⟩
      rw [clean_extrude_edges]
      refine List.mem_map.mpr ⟨e, he, ?_⟩
      rw [if_neg (by rw [hc]; simp)]
  · subst hmode
    refine ⟨?_, ?_, ?_⟩
    · intro f hf
      rw [clean_offset_faces] at hf
      obtain ⟨hf1, -⟩ := List.mem_filter.mp hf
      obtain ⟨f0, -, rfl⟩ := List.mem_map.mp hf1
      rfl
    · intro e he hc
      rw [clean_offset_edges] at he
      obtain ⟨e1, he1, rfl⟩ := List.mem_map.mp he
      obtain ⟨he2, -⟩ := List.mem_filter.mp he1
      obtain ⟨e0, -, rfl⟩ := List.mem_map.mp he2
      by_cases h0 : (g.edges.map MEdge.index).contains e0.index = true
      · rw [if_pos h0]
      · rw [if_neg h0] at hc ⊢
        exact absurd hc h0
    · intro e he hc hside
      rcases hside with hside | hside
      · exact absurd hside (by simp)
      · refine ⟨{ e with linkFaces := e.linkFaces.filter (fun i => !g.faces.contains i) },
          ?_, rfl, rfl⟩
        rw [clean_offset_edges]
        refine List.mem_map.mpr ⟨e, ?_, rfl⟩
        refine List.mem_filter.mpr ⟨?_, ?_⟩
        · exact List.mem_map.mpr ⟨e, he, by rw [if_neg (by rw [hc]; simp)]⟩
        · simpa using hside

theorem C9_witness :
    ∃ e', e' ∈ (clean bm9 .extrude [⟨0, 0, 1, true, false, []⟩] (some g9)).edges ∧
      e'.index = 0 ∧ e'.select = true := by
  have T := C9_amended_originals_stay_selected bm9 .extrude
    [⟨0, 0, 1, true, false, []⟩] g9 (Or.inl rfl)
  have h := T.2.2 ⟨0, 0, 1, true, false, []⟩ (by decide) (by decide) (Or.inl rfl)
  simpa using h

/-- Index consistency of a bmesh snapshot, as `bmesh` guarantees after
`from_mesh`: every vertex's and edge's `index` field equals its position in
its table, and edge endpoints refer to existing vertices. -/
def IndicesOK (bm : Mesh) : Prop :=
  (∀ i < bm.verts.length, (bm.verts.getD i defaultVert).index = i) ∧
  (∀ i < bm.edges.length, (bm.edges.getD i defaultEdge).index = i) ∧
  (∀ e ∈ bm.edges, e.v1 < bm.verts.length ∧ e.v2 < bm.verts.length)

theorem edges_getD_index (bm : Mesh) (hok : IndicesOK bm) (e : MEdge)
    (he : e ∈ bm.edges) : bm.edges.getD e.index defaultEdge = e := by
  obtain ⟨i, hi⟩ := List.mem_iff_get.mp he
  have hgd : bm.edges.getD i.1 defaultEdge = e := by
    rw [List.getD_eq_getElem _ _ i.isLt]
    simpa [List.get_eq_getElem] using hi
  have hidx : e.index = i.1 := by
    rw [← hgd]
    exact hok.2.1 i.1 i.isLt
  rw [hidx, hgd]

theorem vertById_getD_index (bm : Mesh) (hok : IndicesOK bm) (vtx : Nat)
    (hv : vtx < bm.verts.length) :
    ((vertById bm vtx).getD defaultVert).index = vtx := by
  cases hfind : vertById bm vtx with
  | some w =>
    have hw := List.find?_some hfind
    simpa using hw
  | none =>
    exfalso
    have hmem : bm.verts.getD vtx defaultVert ∈ bm.verts := by
      rw [List.getD_eq_getElem _ _ hv]
      exact List.getElem_mem hv
    have hnone := List.find?_eq_none.mp hfind _ hmem
    have hidx := hok.1 vtx hv
    apply hnone
    show ((bm.verts.getD vtx defaultVert).index == vtx) = true
    rw [hidx]
    simp

theorem collect_edges_subset (bm : Mesh) (s : List MEdge)
    (h : collect_edges bm = some s) : ∀ e ∈ s, e ∈ bm.edges := by
  unfold collect_edges at h
  by_cases hL : bm.edges.filter (fun e => e.select && edge_kept bm e.linkFaces 0) = []
  · simp [hL] at h
  · rw [if_neg hL] at h
    simp only [Option.some.injEq] at h
    subst h
    exact fun e he => List.mem_of_mem_filter he

theorem vmp_plane_loop_subset (bm : Mesh) (e : MEdge) (mps : List MirrorPlane)
    (d d' : List (Nat × MirrorPlane)) (s s' : List MEdge)
    (h : vmp_plane_loop bm e mps d s = .ok (d', s')) : ∀ x ∈ s', x ∈ s := by
  induction mps generalizing d s with
  | nil =>
    simp only [vmp_plane_loop, Except.ok.injEq, Prod.mk.injEq] at h
    rw [← h.2]
    exact fun x hx => hx
  | cons mp rest ih =>
    simp only [vmp_plane_loop] at h
    split at h
    · split at h
      · rename_i s1 hrem
        intro x hx
        have hs1 : ∀ y ∈ s1, y ∈ s := by
          unfold setRemove at hrem
          split at hrem
          · simp only [Except.ok.injEq] at hrem
            rw [← hrem]
            exact fun y hy => List.erase_subset _ _ hy
          · simp at hrem
        exact hs1 x (ih _ _ h x hx)
      · simp at h
    · exact ih _ _ h

theorem vmp_edge_loop_subset (bm : Mesh) (mps : List MirrorPlane)
    (es : List MEdge) (d d' : List (Nat × MirrorPlane)) (s s' : List MEdge)
    (h : vmp_edge_loop bm mps es d s = .ok (d', s')) : ∀ x ∈ s', x ∈ s := by
  induction es generalizing d s with
  | nil =>
    simp only [vmp_edge_loop, Except.ok.injEq, Prod.mk.injEq] at h
    rw [← h.2]
    exact fun x hx => hx
  | cons e rest ih =>
    simp only [vmp_edge_loop] at h
    split at h
    · rename_i d1 s1 hpl
      exact fun x hx => vmp_plane_loop_subset bm e mps d d1 s s1 hpl x (ih _ _ h x hx)
    · simp at h

theorem gvmp_subset (bm : Mesh) (s : List MEdge) (planes : List MirrorPlane)
    (vmp : Option (List (Nat × MirrorPlane))) (s' : List MEdge)
    (h : get_vert_mirror_pairs bm s planes = .ok (vmp, s')) : ∀ x ∈ s', x ∈ s := by
  unfold get_vert_mirror_pairs at h
  split at h
  · simp only [Except.ok.injEq, Prod.mk.injEq] at h
    rw [← h.2]
    exact fun x hx => hx
  · split at h
    · rename_i d1 s1 hel
      simp only [Except.ok.injEq, Prod.mk.injEq] at h
      rw [← h.2]
      exact vmp_edge_loop_subset bm planes s [] d1 s s1 hel
    · simp at h

theorem chain_step_rem_subset (n : Nat) (v_left v_right : Nat) (lpv lpv' : List Nat)
    (lpe rem lpe' rem' : List MEdge) (rev : Bool)
    (h : chain_step n v_left v_right lpv lpe rev rem = some (.done lpv' lpe' rem')) :
    ∀ e ∈ rem', e ∈ rem := by
  induction n generalizing v_left v_right lpv lpe rev rem with
  | zero => simp [chain_step] at h
  | succ n ih =>
    simp only [chain_step] at h
    split at h
    · split_ifs at h with hvl hrev
      · simp only [Option.some.injEq, ChainRes.done.injEq] at h
        rw [← h.2.2]
        exact fun e he => he
      · exact ih _ _ _ _ _ _ h
      · simp only [Option.some.injEq, ChainRes.done.injEq] at h
        rw [← h.2.2]
        exact fun e he => he
    · rename_i e heq
      exact fun x hx => List.erase_subset _ _ (ih _ _ _ _ _ _ h x hx)
    · simp at h

theorem chain_step_verts_from (n : Nat) (v_left v_right : Nat) (lpv lpv' : List Nat)
    (lpe rem lpe' rem' : List MEdge) (rev : Bool)
    (h : chain_step n v_left v_right lpv lpe rev rem = some (.done lpv' lpe' rem')) :
    ∀ v ∈ lpv', v ∈ lpv ∨ ∃ e ∈ rem, v = e.v1 ∨ v = e.v2 := by
  induction n generalizing v_left v_right lpv lpe rev rem with
  | zero => simp [chain_step] at h
  | succ n ih =>
    simp only [chain_step] at h
    split at h
    · split_ifs at h with hvl hrev
      · simp only [Option.some.injEq, ChainRes.done.injEq] at h
        rw [← h.1]
        exact fun v hv => Or.inl hv
      · intro v hv
        rcases ih _ _ _ _ _ _ h v hv with hin | hex
        · exact Or.inl (List.mem_reverse.mp hin)
        · exact Or.inr hex
      · simp only [Option.some.injEq, ChainRes.done.injEq] at h
        rw [← h.1]
        exact fun v hv => Or.inl hv
    · rename_i e heq
      have he : e ∈ rem := List.mem_of_mem_filter (heq ▸ List.mem_cons_self e [])
      intro v hv
      rcases ih _ _ _ _ _ _ h v hv with hin | hex
      · rcases List.mem_append.mp hin with hin | hin
        · exact Or.inl hin
        · refine Or.inr ⟨e, he, ?_⟩
          have hv' : v = otherVert e v_right := by simpa using hin
          unfold otherVert at hv'
          split at hv'
          · exact Or.inr hv'
          · exact Or.inl hv'
      · obtain ⟨e2, he2, hve⟩ := hex
        exact Or.inr ⟨e2, List.erase_subset _ _ he2, hve⟩
    · simp at h

theorem collect_loops_aux_verts (n : Nat) (l : List MEdge)
    (lps : List (List Nat × List MEdge))
    (h : collect_loops_aux n l = some lps) :
    ∀ lp ∈ lps, ∀ v ∈ lp.1, ∃ e ∈ l, v = e.v1 ∨ v = e.v2 := by
  induction n generalizing l lps with
  | zero => simp [collect_loops_aux] at h
  | succ n ih =>
    cases l with
    | nil =>
      simp [collect_loops_aux] at h
      subst h
      simp
    | cons e0 rest =>
      simp only [collect_loops_aux] at h
      split at h
      · exact absurd h (by simp)
      · exact absurd h (by simp)
      · rename_i lpv lpe rem hc
        split at h
        · exact absurd h (by simp)
        · rename_i lps' hr
          simp only [Option.some.injEq] at h
          subst h
          intro lp hlp v hv
          rcases List.mem_cons.mp hlp with hlp | hlp
          · subst hlp
            rcases chain_step_verts_from _ _ _ _ _ _ _ _ _ _ hc v hv with hin | hex
            · rcases List.mem_cons.mp hin with hvv | hvv
              · exact ⟨e0, List.mem_cons_self e0 rest, Or.inl hvv⟩
              · exact ⟨e0, List.mem_cons_self e0 rest, Or.inr (by simpa using hvv)⟩
            · obtain ⟨e, he, hve⟩ := hex
              exact ⟨e, List.mem_cons_of_mem e0 he, hve⟩
          · obtain ⟨e, he, hve⟩ := ih rem lps' hr lp hlp v hv
            have hrem : ∀ x ∈ rem, x ∈ rest := chain_step_rem_subset _ _ _ _ _ _ _ _ _ _ hc
            exact ⟨e, List.mem_cons_of_mem e0 (hrem e he), hve⟩

theorem reorder_loop_go_verts (verts : List Nat) (edges : List MEdge) (normal : V3)
    (adj_faces : List (Option MFace)) :
    ∀ (i : Nat) (l : List (Option MFace)),
      (reorder_loop_go verts edges normal adj_faces i l).1 = verts ∨
      (reorder_loop_go verts edges normal adj_faces i l).1 = verts.reverse := by
  intro i l
  induction l generalizing i with
  | nil => exact Or.inl rfl
  | cons a rest ih =>
    cases a with
    | none => exact ih (i + 1)
    | some f =>
      simp only [reorder_loop_go]
      split_ifs with hflip
      · exact Or.inr rfl
      · exact Or.inl rfl


theorem gd_canonicalize_verts (bm : Mesh) (lp : List Nat × List MEdge) (vu nf : V3) :
    (gd_canonicalize bm lp vu nf).1 = lp.1 ∨ (gd_canonicalize bm lp vu nf).1 = lp.1.reverse := by
  by_cases h : dot (calc_normal_from_verts bm lp.1 nf) vu < 0
  · right; simp [gd_canonicalize, h]
  · left; simp [gd_canonicalize, h]

theorem gd_follow_face_verts (bm : Mesh) (opts : Options) (s1 : List Nat × List MEdge × V3) :
    (gd_follow_face bm opts s1).1 = s1.1 ∨ (gd_follow_face bm opts s1).1 = s1.1.reverse := by
  by_cases h : opts.follow_face = true
  · cases hadj : get_adj_faces bm s1.2.1 with
    | some afs =>
      have := reorder_loop_go_verts s1.1 s1.2.1 s1.2.2 afs 0 afs
      simpa [gd_follow_face, h, hadj, reorder_loop] using this
    | none => left; simp [gd_follow_face, h, hadj]
  · left; simp [gd_follow_face, h]

theorem get_directions_verts_subset (bm : Mesh) (lp : List Nat × List MEdge)
    (vu nf : V3) (vmp : Option (List (Nat × MirrorPlane))) (opts : Options) :
    ∀ v ∈ (get_directions bm lp vu nf vmp opts).1, v ∈ lp.1 := by
  intro v hv
  have hsub2 : ∀ w ∈ (gd_follow_face bm opts (gd_canonicalize bm lp vu nf)).1, w ∈ lp.1 := by
    intro w hw
    have h2 := gd_follow_face_verts bm opts (gd_canonicalize bm lp vu nf)
    have h1 := gd_canonicalize_verts bm lp vu nf
    rcases h2 with h2 | h2 <;> rw [h2] at hw
    · rcases h1 with h1 | h1 <;> rw [h1] at hw
      · exact hw
      · exact List.mem_reverse.mp hw
    · rw [List.mem_reverse] at hw
      rcases h1 with h1 | h1 <;> rw [h1] at hw
      · exact hw
      · exact List.mem_reverse.mp hw
  simp only [get_directions] at hv
  split at hv
  · simp at hv
  · rename_i ds hds
    split at hv
    · exact hsub2 v (List.dropLast_subset _ hv)
    · exact hsub2 v hv

theorem infos_foldl_mem (bm : Mesh) (vu nf : V3) (vmp : Option (List (Nat × MirrorPlane)))
    (opts : Options) (loops : List (List Nat × List MEdge))
    (acc : List (List Nat × List (V3 × V3))) (p : List Nat × List (V3 × V3))
    (hp : p ∈ loops.foldl (fun acc lp =>
      let vd := get_directions bm lp vu nf vmp opts
      if vd.1 ≠ [] then acc ++ [vd] else acc) acc) :
    p ∈ acc ∨ ∃ lp ∈ loops, p = get_directions bm lp vu nf vmp opts := by
  induction loops generalizing acc with
  | nil => exact Or.inl hp
  | cons lp0 rest ih =>
    simp only [List.foldl_cons] at hp
    rcases ih _ hp with hin | hex
    · by_cases h0 : (get_directions bm lp0 vu nf vmp opts).1 ≠ []
      · rw [if_pos h0] at hin
        rcases List.mem_append.mp hin with hin | hin
        · exact Or.inl hin
        · refine Or.inr ⟨lp0, List.mem_cons_self lp0 rest, ?_⟩
          simpa using hin
      · rw [if_neg h0] at hin
        exact Or.inl hin
    · obtain ⟨lp, hlp, hpe⟩ := hex
      exact Or.inr ⟨lp, List.mem_cons_of_mem lp0 hlp, hpe⟩


theorem get_offset_infos_computed_inv (props : OpProps) (caches : Caches) (bm : Mesh)
    (planes : List MirrorPlane) (infos : List (List Nat × List (V3 × V3)))
    (s' : List MEdge) (caches' : Caches) (ws : List Warning)
    (h : get_offset_infos props caches bm planes = .ok (.computed infos s', caches', ws)) :
    caches' = ⟨some (infos.map (fun p =>
        (p.1.map (fun vtx => ((vertById bm vtx).getD defaultVert).index), p.2))),
      some (s'.map MEdge.index)⟩ ∧
    (∀ e ∈ s', e ∈ bm.edges) ∧
    (∀ p ∈ infos, ∀ vtx ∈ p.1, ∃ e ∈ s', vtx = e.v1 ∨ vtx = e.v2) := by
  unfold get_offset_infos at h
  split at h
  · simp at h
  · split at h
    · simp at h
    · rename_i s hce
      by_cases hmm : props.mirror_modifier = true
      · rw [if_pos hmm] at h
        cases hgv : get_vert_mirror_pairs bm s planes with
        | error err => rw [hgv] at h; simp at h
        | ok pr =>
          obtain ⟨vmp0, s2⟩ := pr
          rw [hgv] at h
          dsimp only [] at h
          have hsub2 : ∀ e ∈ s2, e ∈ s := gvmp_subset bm s planes vmp0 s2 hgv
          cases hloops : collect_loops s2 with
          | none => rw [hloops] at h; simp at h
          | some loops =>
            rw [hloops] at h
            dsimp only [] at h
            simp only [Except.ok.injEq, Prod.mk.injEq, InfosResult.computed.injEq] at h
            obtain ⟨⟨hinfos, hs'⟩, hcaches, hws⟩ := h
            subst hs'
            refine ⟨?_, ?_, ?_⟩
            · rw [← hcaches, ← hinfos]
            · exact fun e he => collect_edges_subset bm s hce e (hsub2 e he)
            · intro p hp vtx hvtx
              rw [← hinfos] at hp
              rcases infos_foldl_mem bm _ _ vmp0 _ loops [] p hp with hin | hex
              · simp at hin
              · obtain ⟨lp, hlp, hpe⟩ := hex
                have hvlp : vtx ∈ lp.1 := by
                  rw [hpe] at hvtx
                  exact get_directions_verts_subset bm lp _ _ vmp0 _ vtx hvtx
                exact collect_loops_aux_verts _ _ loops hloops lp hlp vtx hvlp
      · rw [if_neg hmm] at h
        dsimp only [] at h
        cases hloops : collect_loops s with
        | none => rw [hloops] at h; simp at h
        | some loops =>
          rw [hloops] at h
          dsimp only [] at h
          simp only [Except.ok.injEq, Prod.mk.injEq, InfosResult.computed.injEq] at h
          obtain ⟨⟨hinfos, hs'⟩, hcaches, hws⟩ := h
          subst hs'
          refine ⟨?_, ?_, ?_⟩
          · rw [← hcaches, ← hinfos]
          · exact fun e he => collect_edges_subset bm s hce e he
          · intro p hp vtx hvtx
            rw [← hinfos] at hp
            rcases infos_foldl_mem bm _ _ none _ loops [] p hp with hin | hex
            · simp at hin
            · obtain ⟨lp, hlp, hpe⟩ := hex
              have hvlp : vtx ∈ lp.1 := by
                rw [hpe] at hvtx
                exact get_directions_verts_subset bm lp _ _ none _ vtx hvtx
              exact collect_loops_aux_verts _ _ loops hloops lp hlp vtx hvlp


theorem get_offset_infos_opts_determined (props0 props1 : OpProps)
    (caches0c caches2 : Caches) (bm : Mesh) (planes : List MirrorPlane)
    (infos : List (List Nat × List (V3 × V3))) (s' : List MEdge)
    (caches1 : Caches) (ws : List Warning)
    (h : get_offset_infos props0 caches0c bm planes = .ok (.computed infos s', caches1, ws))
    (h1 : props1.caches_valid = false)
    (h2 : props1.follow_face = props0.follow_face)
    (h3 : props1.edge_rail = props0.edge_rail)
    (h4 : props1.edge_rail_only_end = props0.edge_rail_only_end)
    (h5 : props1.threshold = props0.threshold)
    (h6 : props1.mirror_modifier = props0.mirror_modifier) :
    get_offset_infos props1 caches2 bm planes = .ok (.computed infos s', caches1, ws) := by
  unfold get_offset_infos at h ⊢
  rw [if_neg (by simp [h1])]
  by_cases hco : (props0.caches_valid = true ∧ caches0c.offset_infos ≠ none)
  · rw [if_pos hco] at h
    simp at h
  · rw [if_neg hco] at h
    cases hce : collect_edges bm with
    | none => rw [hce] at h; simp at h
    | some s =>
      rw [hce] at h
      dsimp only [] at h ⊢
      rw [h2, h3, h4, h5, h6]
      by_cases hmm0 : props0.mirror_modifier = true
      · rw [if_pos hmm0] at h ⊢
        cases hgv : get_vert_mirror_pairs bm s planes with
        | error err => rw [hgv] at h; simp at h
        | ok pr =>
          obtain ⟨vmp0, s2⟩ := pr
          rw [hgv] at h
          dsimp only [] at h ⊢
          cases hloops : collect_loops s2 with
          | none => rw [hloops] at h; simp at h
          | some loops =>
            rw [hloops] at h
            dsimp only [] at h ⊢
            exact h
      · rw [if_neg hmm0] at h ⊢
        dsimp only [] at h ⊢
        cases hloops : collect_loops s with
        | none => rw [hloops] at h; simp at h
        | some loops =>
          rw [hloops] at h
          dsimp only [] at h ⊢
          exact h

/-- C8: cache transparency.  If a full computation on the topology snapshot
`bm` produced `infos`/`s'` and saved the caches, then (1) replaying any
(width, depth) through the cached path — positional lookup of the cached
vertex-index lists and memoized directions against a fresh copy of the same
snapshot, skipping edge collection, loop extraction and direction solving —
yields exactly the mesh the direct path yields on the same data, and (2) the
full non-cached computation for the same snapshot and the same option flags
(any width/depth, cache invalid) returns exactly the same infos, edge set,
caches and warnings, so the cached replay equals the full non-cached
computation.  Index consistency (`IndicesOK`, bmesh's invariant after
`from_mesh`) is what makes the positional lookups recover the objects. -/
theorem C8_cache_transparent (props props0 : OpProps) (caches0c caches1 : Caches)
    (bm : Mesh) (planes : List MirrorPlane)
    (infos : List (List Nat × List (V3 × V3))) (s' : List MEdge) (ws : List Warning)
    (hok : IndicesOK bm)
    (hcompute : get_offset_infos props0 caches0c bm planes
      = .ok (.computed infos s', caches1, ws)) :
    do_offset_and_free props caches1 bm none none
      = do_offset_and_free props caches1 bm (some infos) (some s') ∧
    (∀ (props1 : OpProps) (caches2 : Caches),
      props1.caches_valid = false →
      props1.follow_face = props0.follow_face →
      props1.edge_rail = props0.edge_rail →
      props1.edge_rail_only_end = props0.edge_rail_only_end →
      props1.threshold = props0.threshold →
      props1.mirror_modifier = props0.mirror_modifier →
      get_offset_infos props1 caches2 bm planes
        = .ok (.computed infos s', caches1, ws)) := by
  obtain ⟨hc1, hsubE, hvalid⟩ :=
    get_offset_infos_computed_inv props0 caches0c bm planes infos s' caches1 ws hcompute
  constructor
  · have hvd : (infos.map (fun p =>
        (p.1.map (fun vtx => ((vertById bm vtx).getD defaultVert).index), p.2))).map
          (fun p => (p.1.map (fun ix => (bm.verts.getD ix defaultVert).index), p.2))
        = infos := by
      rw [List.map_map]
      have hpt : ∀ p ∈ infos,
          ((fun p => (p.1.map (fun ix => (bm.verts.getD ix defaultVert).index), p.2)) ∘
            (fun p => (p.1.map (fun vtx => ((vertById bm vtx).getD defaultVert).index), p.2))) p
          = p := by
        intro p hp
        have h1 : (p.1.map (fun vtx => ((vertById bm vtx).getD defaultVert).index)).map
            (fun ix => (bm.verts.getD ix defaultVert).index) = p.1 := by
          rw [List.map_map]
          have hvt : ∀ vtx ∈ p.1,
              ((fun ix => (bm.verts.getD ix defaultVert).index) ∘
                (fun vtx => ((vertById bm vtx).getD defaultVert).index)) vtx = vtx := by
            intro vtx hvtx
            obtain ⟨e, he, hv⟩ := hvalid p hp vtx hvtx
            have hbm : e ∈ bm.edges := hsubE e he
            have hlt : vtx < bm.verts.length := by
              rcases hv with hv | hv
              · rw [hv]; exact (hok.2.2 e hbm).1
              · rw [hv]; exact (hok.2.2 e hbm).2
            show (bm.verts.getD (((vertById bm vtx).getD defaultVert).index) defaultVert).index
                = vtx
            rw [vertById_getD_index bm hok vtx hlt]
            exact hok.1 vtx hlt
          calc p.1.map _ = p.1.map id := List.map_congr_left hvt
            _ = p.1 := List.map_id p.1
        show ((p.1.map (fun vtx => ((vertById bm vtx).getD defaultVert).index)).map
            (fun ix => (bm.verts.getD ix defaultVert).index), p.2) = p
        rw [h1]
      calc infos.map _ = infos.map id := List.map_congr_left hpt
        _ = infos := List.map_id infos
    have hed : (s'.map MEdge.index).map (fun ix => bm.edges.getD ix defaultEdge) = s' := by
      rw [List.map_map]
      have het : ∀ e ∈ s',
          ((fun ix => bm.edges.getD ix defaultEdge) ∘ MEdge.index) e = e := by
        intro e he
        exact edges_getD_index bm hok e (hsubE e he)
      calc s'.map _ = s'.map id := List.map_congr_left het
        _ = s' := List.map_id s'
    rw [hc1]
    unfold do_offset_and_free
    simp only [Option.getD_some]
    rw [hvd, hed]
  · intro props1 caches2 h1 h2 h3 h4 h5 h6
    exact get_offset_infos_opts_determined props0 props1 caches0c caches2 bm planes
      infos s' caches1 ws hcompute h1 h2 h3 h4 h5 h6

/-- A second parameter set for the C8 witness: same option flags as
`props2`, different width, cache still invalid. -/
def propsW8 : OpProps := { props2 with width := 2 }

theorem C8_witness :
    do_offset_and_free props2 ⟨some [], some []⟩ bm2c none none
      = do_offset_and_free props2 ⟨some [], some []⟩ bm2c (some []) (some []) ∧
    get_offset_infos propsW8 caches0 bm2c planes2
      = .ok (.computed [] [], ⟨some [], some []⟩, [.allEdgesMirrored]) := by
  have hgoi : get_offset_infos props2 caches0 bm2c planes2
      = .ok (.computed [] [], ⟨some [], some []⟩, [.allEdgesMirrored]) := by
    simp [get_offset_infos, gvmp_bm2c, collect_loops, collect_loops_aux,
      show collect_edges bm2c = some [⟨0, 0, 1, true, false, []⟩] by decide, props2]
  have hok : IndicesOK bm2c := by
    refine ⟨?_, ?_, ?_⟩
    · intro i hi
      have h2 : i < 2 := by simpa [bm2c] using hi
      interval_cases i <;> rfl
    · intro i hi
      have h1 : i < 1 := by simpa [bm2c] using hi
      interval_cases i
      rfl
    · intro e he
      simp only [bm2c, List.mem_singleton] at he
      subst he
      refine ⟨by norm_num [bm2c], by norm_num [bm2c]⟩
  have T := C8_cache_transparent props2 props2 caches0 ⟨some [], some []⟩ bm2c planes2
    [] [] [.allEdgesMirrored] hok hgoi
  exact ⟨T.1, T.2 propsW8 caches0 rfl rfl rfl rfl rfl rfl⟩
